import Mathlib

/-!
Verification development for the Project Zomboid server dashboard
(`dashboard/app.py`).

Python strings are modelled as `List Char` (named `Str` below); the SQLite
`settings` table and the Python dictionaries are modelled as association
lists that keep insertion order, and the mirrored `.env` file is modelled
as its list of lines (without trailing newlines).  Each definition is a
direct translation of the Python function of the same name.
-/

abbrev Str := List Char

/-- The ASCII whitespace characters removed by Python `str.strip()`. -/
def pyIsSpace (c : Char) : Bool :=
  c == ' ' || c == '\t' || c == '\n' || c == '\x0b' || c == '\x0c' || c == '\r'

/-- Python `str.strip()`: drop whitespace from both ends. -/
def pyStrip (s : Str) : Str :=
  ((s.dropWhile pyIsSpace).reverse.dropWhile pyIsSpace).reverse

/-- Python `str.startswith`. -/
def pyStartsWith (s pre : Str) : Bool :=
  pre.isPrefixOf s

/-- Lookup in a Python dict modelled as an association list (keys unique). -/
def dictLookup (d : List (Str × Str)) (k : Str) : Option Str :=
  match d with
  | [] => none
  | kv :: rest => if kv.1 = k then some kv.2 else dictLookup rest k

/-- Python dict assignment `d[k] = v`: replace in place, else append. -/
def dictInsert (d : List (Str × Str)) (k v : Str) : List (Str × Str) :=
  match d with
  | [] => [(k, v)]
  | kv :: rest => if kv.1 = k then (k, v) :: rest else kv :: dictInsert rest k v

/-- The key of a `KEY=VALUE` line: Python `line.split('=', 1)[0].strip()`
applied to the stripped line. -/
def lineKey (line : Str) : Str :=
  pyStrip ((pyStrip line).takeWhile (fun c => c != '='))

/-- The value of a `KEY=VALUE` line: Python `line.split('=', 1)[1].strip()`
applied to the stripped line. -/
def lineVal (line : Str) : Str :=
  pyStrip (((pyStrip line).dropWhile (fun c => c != '=')).drop 1)

/-- The test performed on each line by `read_env_file`
(`if line and not line.startswith('#') and '=' in line`), returning the
parsed pair when it passes. -/
def parsedKV (line : Str) : Option (Str × Str) :=
  let l := pyStrip line
  if l ≠ [] ∧ pyStartsWith l ['#'] = false ∧ '=' ∈ l then some (lineKey line, lineVal line)
  else none

/-- `read_env_file`: read the `.env` lines into a dict. -/
def read_env_file (lines : List Str) : List (Str × Str) :=
  lines.foldl (fun env line =>
    match parsedKV line with
    | some kv => dictInsert env kv.1 kv.2
    | none => env) []

/-- One iteration of the rewrite loop of `write_env_file`; the accumulator
carries the output lines built so far and the `existing_keys` set. -/
def writeStep (env : List (Str × Str)) (acc : List Str × List Str) (line : Str) :
    List Str × List Str :=
  let s := pyStrip line
  if pyStartsWith s ['#'] = true ∨ s = [] then (acc.1 ++ [line], acc.2)
  else if '=' ∈ s then
    match dictLookup env (lineKey line) with
    | some v => (acc.1 ++ [lineKey line ++ '=' :: v], lineKey line :: acc.2)
    | none => (acc.1 ++ [line], lineKey line :: acc.2)
  else acc

/-- `write_env_file`: rewrite the `.env` lines from the dict `env`,
preserving comments and order, then append the keys not present in the
file. -/
def write_env_file (lines : List Str) (env : List (Str × Str)) : List Str :=
  let r := lines.foldl (writeStep env) ([], [])
  r.1 ++ (env.filter (fun kv => decide (kv.1 ∉ r.2))).map (fun kv => kv.1 ++ '=' :: kv.2)

abbrev Store := List (Str × Str)

def WORKSHOP_KEY : Str := "WORKSHOP_ITEMS".toList

def MODS_KEY : Str := "MODS".toList

def SERVER_NAME_KEY : Str := "SERVER_NAME".toList

/-- The durable state touched by the mod operations: the SQLite `settings`
table and the mirrored `.env` file. -/
structure ModState where
  db : Store
  envLines : List Str
deriving DecidableEq

/-- The parsing done by `get_mods` on a stored value: split on `;`, strip
each token, drop the empty ones. -/
def parseModList (s : Str) : List Str :=
  ((List.splitOn ';' s).map pyStrip).filter (fun t => decide (t ≠ []))

/-- `get_mods`: read the two lists from SQLite, falling back to the `.env`
file (with a one-time migration into SQLite) when neither key is stored. -/
def get_mods (st : ModState) : (List Str × List Str) × ModState :=
  let wrow := dictLookup st.db WORKSHOP_KEY
  let mrow := dictLookup st.db MODS_KEY
  if wrow.isSome ∨ mrow.isSome then
    ((parseModList (wrow.getD []), parseModList (mrow.getD [])), st)
  else
    let env := read_env_file st.envLines
    let wi := (dictLookup env WORKSHOP_KEY).getD []
    let ms := (dictLookup env MODS_KEY).getD []
    let db' := if wi ≠ [] ∨ ms ≠ [] then
        dictInsert (dictInsert st.db WORKSHOP_KEY wi) MODS_KEY ms
      else st.db
    ((parseModList wi, parseModList ms), ⟨db', st.envLines⟩)

/-- `save_mods`: join each list with `;`, write both keys to SQLite and
sync them into the `.env` file. -/
def save_mods (workshop_items mods : List Str) (st : ModState) : ModState :=
  let workshop_str := List.intercalate [';'] workshop_items
  let mods_str := List.intercalate [';'] mods
  let db' := dictInsert (dictInsert st.db WORKSHOP_KEY workshop_str) MODS_KEY mods_str
  let env := dictInsert (dictInsert (read_env_file st.envLines) WORKSHOP_KEY workshop_str)
    MODS_KEY mods_str
  ⟨db', write_env_file st.envLines env⟩

/-- The `success`/`output` JSON payload returned by the API endpoints. -/
structure ApiResult where
  success : Bool
  output : Str
deriving DecidableEq

/-- `api_save_mods`: save the posted lists as given. -/
def api_save_mods (workshop_items mods : List Str) (st : ModState) : ApiResult × ModState :=
  (⟨true, "Mods saved. Restart server to apply.".toList⟩, save_mods workshop_items mods st)

/-- `api_add_mod`: append the workshop id (and optional mod id) when not
already present, then save. -/
def api_add_mod (workshop_id_raw mod_id_raw : Str) (st : ModState) : ApiResult × ModState :=
  let workshop_id := pyStrip workshop_id_raw
  let mod_id := pyStrip mod_id_raw
  if workshop_id = [] then (⟨false, "Workshop ID is required".toList⟩, st)
  else
    let r := get_mods st
    let wi := if workshop_id ∈ r.1.1 then r.1.1 else r.1.1 ++ [workshop_id]
    let ms := if mod_id ≠ [] ∧ mod_id ∉ r.1.2 then r.1.2 ++ [mod_id] else r.1.2
    (⟨true, "Added mod ".toList ++ workshop_id⟩, save_mods wi ms r.2)

/-- `api_remove_mod`: remove the first occurrence of each given id when
present, then save. -/
def api_remove_mod (workshop_id_raw mod_id_raw : Str) (st : ModState) : ApiResult × ModState :=
  let workshop_id := pyStrip workshop_id_raw
  let mod_id := pyStrip mod_id_raw
  let r := get_mods st
  let wi := if workshop_id ≠ [] ∧ workshop_id ∈ r.1.1 then r.1.1.erase workshop_id else r.1.1
  let ms := if mod_id ≠ [] ∧ mod_id ∈ r.1.2 then r.1.2.erase mod_id else r.1.2
  (⟨true, "Mod removed".toList⟩, save_mods wi ms r.2)

/-- `api_import_collection`: the Steam fetch is external, so its outcome
is a parameter — an error string, or the collection's item id list.  Each
fetched id is appended to the workshop list when not already present (the
membership test runs against the growing list, as in the Python loop),
and the result is saved; the mods list is not touched. -/
def api_import_collection (collection_id_raw : Str) (fetched : Except Str (List Str))
    (st : ModState) : ApiResult × ModState :=
  let collection_id := pyStrip collection_id_raw
  if collection_id = [] then (⟨false, "Collection ID is required".toList⟩, st)
  else
    match fetched with
    | .error e => (⟨false, e⟩, st)
    | .ok item_ids =>
      if item_ids = [] then (⟨false, "Collection is empty".toList⟩, st)
      else
        let r := get_mods st
        let wi := item_ids.foldl (fun acc id => if id ∈ acc then acc else acc ++ [id]) r.1.1
        let added := wi.length - r.1.1.length
        (⟨true, "Added ".toList ++ Nat.toDigits 10 added ++
          " mods from collection (".toList ++ Nat.toDigits 10 item_ids.length ++
          " total, ".toList ++ Nat.toDigits 10 (item_ids.length - added) ++
          " already existed)".toList⟩,
         save_mods wi r.1.2 r.2)

/-- Python substring containment `sub in s`. -/
def containsSub (sub : Str) : Str → Bool
  | [] => sub.isPrefixOf []
  | c :: rest => sub.isPrefixOf (c :: rest) || containsSub sub rest

/-- A file tree: the recursive content copied by `shutil.copytree`. -/
inductive FsTree where
  | file (data : Str)
  | dir (entries : List (Str × FsTree))

/-- A filesystem entry: its content tree and its modification time
(`st_mtime`; `shutil.copytree` preserves it via `copy2`/`copystat`). -/
structure FsEntry where
  tree : FsTree
  mtime : Nat

/-- The filesystem, as a map from resolved absolute paths (component
lists) to entries, in enumeration order. -/
abbrev Fs := List (List Str × FsEntry)

def pathLookup (fs : Fs) (p : List Str) : Option FsEntry :=
  match fs with
  | [] => none
  | e :: rest => if e.1 = p then some e.2 else pathLookup rest p

/-- Resolve a POSIX path string into its component list: empty components
and `.` are dropped and `..` removes the parent component (at the root it
stays at the root, as the kernel does). -/
def resolvePath (p : Str) : List Str :=
  (List.splitOn '/' p).foldl (fun acc c =>
    if c = [] ∨ c = ".".toList then acc
    else if c = "..".toList then acc.dropLast
    else acc ++ [c]) []

/-- Python `os.path.join(a, b)`: `b` replaces everything when absolute,
otherwise it is appended after a `/`. -/
def pyPathJoin (a b : Str) : Str :=
  if pyStartsWith b ['/'] = true then b else a ++ '/' :: b

/-- `os.path.exists` in the filesystem model. -/
def fsExists (fs : Fs) (p : Str) : Bool :=
  (pathLookup fs (resolvePath p)).isSome

def COMPOSE_DIR : Str := "/home/ubuntu/pz-server".toList

/-- `os.path.join(COMPOSE_DIR, 'server-data', 'Saves', 'Multiplayer')`. -/
def SAVES_DIR : Str :=
  pyPathJoin (pyPathJoin (pyPathJoin COMPOSE_DIR ("server-data".toList)) ("Saves".toList))
    ("Multiplayer".toList)

/-- The 18-character shape `_DD-MM-YY_HH-MM-SS` matched by the regular
expression in `is_backup_folder`. -/
def matchTimestamp : Str → Bool
  | ['_', a1, a2, '-', b1, b2, '-', c1, c2, '_', d1, d2, '-', e1, e2, '-', f1, f2] =>
    a1.isDigit && a2.isDigit && b1.isDigit && b2.isDigit && c1.isDigit && c2.isDigit &&
    d1.isDigit && d2.isDigit && e1.isDigit && e2.isDigit && f1.isDigit && f2.isDigit
  | _ => false

/-- `re.search(r'_\d{2}-\d{2}-\d{2}_\d{2}-\d{2}-\d{2}$', name)`: the
pattern is anchored at the end and is 18 characters long, so the search
succeeds exactly when the last 18 characters have that shape. -/
def searchTimestampEnd (name : Str) : Bool :=
  matchTimestamp (name.drop (name.length - 18))

/-- `is_backup_folder`. -/
def is_backup_folder (name : Str) : Bool :=
  if containsSub ("_backup".toList) (name.map Char.toLower) then true
  else if searchTimestampEnd name then true
  else false

/-- `get_current_world`: `SERVER_NAME` from the `.env` file, defaulting to
`servertest`. -/
def get_current_world (envLines : List Str) : Str :=
  (dictLookup (read_env_file envLines) SERVER_NAME_KEY).getD ("servertest".toList)

/-- One entry of the world listing: a name and its modification time. -/
structure WorldEntry where
  name : Str
  modified : Nat
deriving DecidableEq

def savesComponents : List Str := resolvePath SAVES_DIR

/-- `os.listdir(SAVES_DIR)`: the names whose resolved path sits directly
below the saves directory, in enumeration order. -/
def listdirSaves (fs : Fs) : List Str :=
  fs.filterMap (fun e =>
    if e.1.dropLast = savesComponents ∧ e.1 ≠ [] then e.1.getLast? else none)

def isDirAt (fs : Fs) (p : List Str) : Bool :=
  match pathLookup fs p with
  | some e => match e.tree with | .dir _ => true | .file _ => false
  | none => false

/-- Insert an entry into a list sorted newest-first, placing it before
the first entry that is not newer: together with `sortByMtimeDesc` this is
the stable descending sort performed by Python's
`sort(key=modified, reverse=True)`. -/
def insertByMtime (e : WorldEntry) : List WorldEntry → List WorldEntry
  | [] => [e]
  | x :: xs => if x.modified ≤ e.modified then e :: x :: xs else x :: insertByMtime e xs

/-- Stable sort by modification time, newest first. -/
def sortByMtimeDesc (l : List WorldEntry) : List WorldEntry :=
  l.foldr insertByMtime []

/-- `get_available_worlds`: list the saves directory, classify each
directory with `is_backup_folder`, and sort both lists by modification
time, newest first (Python's stable sort with `reverse=True`). -/
def get_available_worlds (fs : Fs) : List WorldEntry × List WorldEntry :=
  if fsExists fs SAVES_DIR then
    let entries := (listdirSaves fs).filterMap (fun name =>
      if isDirAt fs (savesComponents ++ [name]) then
        match pathLookup fs (savesComponents ++ [name]) with
        | some e => some (⟨name, e.mtime⟩ : WorldEntry)
        | none => none
      else none)
    let worlds := entries.filter (fun e => !(is_backup_folder e.name))
    let backups := entries.filter (fun e => is_backup_folder e.name)
    (sortByMtimeDesc worlds, sortByMtimeDesc backups)
  else ([], [])

/-- The durable state touched by the world operations: the save
directories and the `.env` file. -/
structure WorldState where
  fs : Fs
  envLines : List Str

/-- The character class of `^[a-zA-Z0-9_-]+$`. -/
def isWordChar (c : Char) : Bool :=
  c.isAlpha || c.isDigit || c == '_' || c == '-'

/-- `re.match(r'^[a-zA-Z0-9_-]+$', name)` as a Boolean test. -/
def validWorldName (name : Str) : Bool :=
  decide (name ≠ []) && name.all isWordChar

/-- The block `env = read_env_file(); env['SERVER_NAME'] = name;
write_env_file(env)` shared by the world endpoints. -/
def setServerName (envLines : List Str) (name : Str) : List Str :=
  write_env_file envLines (dictInsert (read_env_file envLines) SERVER_NAME_KEY name)

/-- `api_create_world`: validate the name, reject a collision with any
listed world or backup, then set `SERVER_NAME` (no directory is
created). -/
def api_create_world (world_name_raw : Str) (st : WorldState) : ApiResult × WorldState :=
  let world_name := pyStrip world_name_raw
  if world_name = [] then (⟨false, "World name is required".toList⟩, st)
  else if validWorldName world_name = false then
    (⟨false, "Invalid world name. Use only letters, numbers, underscore and hyphen.".toList⟩, st)
  else
    let wb := get_available_worlds st.fs
    let all_names := wb.1.map WorldEntry.name ++ wb.2.map WorldEntry.name
    if world_name ∈ all_names then
      (⟨false, "A world with this name already exists".toList⟩, st)
    else
      (⟨true, "World \"".toList ++ world_name ++
        "\" will be created on next server start. Restart the server to begin.".toList⟩,
       ⟨st.fs, setServerName st.envLines world_name⟩)

/-- `api_restore_backup`: validate the target name only, require the
backup path to exist and the target path not to, then copy the backup to
the target and set `SERVER_NAME` to the target. -/
def api_restore_backup (backup_name_raw target_name_raw : Str) (st : WorldState) :
    ApiResult × WorldState :=
  let backup_name := pyStrip backup_name_raw
  let target_name := pyStrip target_name_raw
  if backup_name = [] then (⟨false, "Backup name is required".toList⟩, st)
  else if target_name = [] then (⟨false, "Target world name is required".toList⟩, st)
  else if validWorldName target_name = false then
    (⟨false, "Invalid target name. Use only letters, numbers, underscore and hyphen.".toList⟩, st)
  else
    let backup_path := pyPathJoin SAVES_DIR backup_name
    let target_path := pyPathJoin SAVES_DIR target_name
    if fsExists st.fs backup_path = false then (⟨false, "Backup not found".toList⟩, st)
    else if fsExists st.fs target_path = true then
      (⟨false, "World \"".toList ++ target_name ++
        "\" already exists. Choose a different name or delete it first.".toList⟩, st)
    else
      let fs' := match pathLookup st.fs (resolvePath backup_path) with
        | some e => st.fs ++ [(resolvePath target_path, e)]
        | none => st.fs
      (⟨true, "Restored backup to \"".toList ++ target_name ++
        "\". Restart server to load it.".toList⟩,
       ⟨fs', setServerName st.envLines target_name⟩)

/-! ## Specification-side descriptions used by the claims -/

/-- A token that can be stored in a mod list: nonempty, already stripped,
and free of the `;` separator. -/
def validToken (s : Str) : Prop :=
  s ≠ [] ∧ pyStrip s = s ∧ ';' ∉ s

instance (s : Str) : Decidable (validToken s) := by
  unfold validToken; infer_instance

/-- The per-line transformation applied by the rewrite loop of
`write_env_file`. -/
def keepLine (env : List (Str × Str)) (line : Str) : Option Str :=
  let s := pyStrip line
  if pyStartsWith s ['#'] = true ∨ s = [] then some line
  else if '=' ∈ s then
    match dictLookup env (lineKey line) with
    | some v => some (lineKey line ++ '=' :: v)
    | none => some line
  else none

/-- The key recorded in `existing_keys` for a line, when any. -/
def lineKeyOpt (line : Str) : Option Str :=
  let s := pyStrip line
  if pyStartsWith s ['#'] = true ∨ s = [] then none
  else if '=' ∈ s then some (lineKey line) else none

/-- The keys of the `KEY=VALUE` lines of a file, in order. -/
def fileKeys (lines : List Str) : List Str :=
  lines.filterMap lineKeyOpt

/-- Spec wording for the first disjunct of the backup classification:
the name contains the literal substring `_backup`, case-insensitively. -/
def specContainsBackup (name : Str) : Prop :=
  ∃ pre post, pre ++ ("_backup".toList) ++ post = name.map Char.toLower

/-- Spec wording for the second disjunct: the name ends with a timestamp
suffix `_DD-MM-YY_HH-MM-SS` of six two-digit fields. -/
def specTimestampSuffix (name : Str) : Prop :=
  ∃ (pre : Str) (d1 d2 m1 m2 y1 y2 h1 h2 n1 n2 s1 s2 : Char),
    d1.isDigit = true ∧ d2.isDigit = true ∧ m1.isDigit = true ∧ m2.isDigit = true ∧
    y1.isDigit = true ∧ y2.isDigit = true ∧ h1.isDigit = true ∧ h2.isDigit = true ∧
    n1.isDigit = true ∧ n2.isDigit = true ∧ s1.isDigit = true ∧ s2.isDigit = true ∧
    name = pre ++
      ['_', d1, d2, '-', m1, m2, '-', y1, y2, '_', h1, h2, '-', n1, n2, '-', s1, s2]

/-- The spec's classification rule for backup directory names. -/
def isBackupSpec (name : Str) : Prop :=
  specContainsBackup name ∨ specTimestampSuffix name

/-- The combined name list `all_names` computed by `api_create_world`. -/
def allSavedNames (fs : Fs) : List Str :=
  (get_available_worlds fs).1.map WorldEntry.name ++
    (get_available_worlds fs).2.map WorldEntry.name

/-- A state whose saves directory exists and is empty. -/
def emptySavesState : WorldState :=
  ⟨[(savesComponents, ⟨FsTree.dir [], 5⟩)], []⟩

/-- A state holding a single save directory named `b1`. -/
def oneBackupState : WorldState :=
  ⟨[(savesComponents ++ [("b1".toList)], ⟨FsTree.dir [], 7⟩)], []⟩

/-- A state holding one directory that lives outside the saves root, at
the path reached by joining the saves directory with `../../../../etc`. -/
def outsideDirState : WorldState :=
  ⟨[(resolvePath (pyPathJoin SAVES_DIR ("../../../../etc".toList)), ⟨FsTree.dir [], 3⟩)], []⟩

/-! ## Dictionary lemmas -/

theorem dictLookup_dictInsert_self (d : List (Str × Str)) (k v : Str) :
    dictLookup (dictInsert d k v) k = some v := by
  induction d with
  | nil => simp [dictInsert, dictLookup]
  | cons kv rest ih =>
    by_cases h : kv.1 = k
    · simp [dictInsert, h, dictLookup]
    · simp [dictInsert, h, dictLookup, ih]

theorem dictLookup_dictInsert_ne (d : List (Str × Str)) (k v k' : Str) (h : k' ≠ k) :
    dictLookup (dictInsert d k v) k' = dictLookup d k' := by
  induction d with
  | nil => simp [dictInsert, dictLookup, Ne.symm h]
  | cons kv rest ih =>
    by_cases hk : kv.1 = k
    · subst hk
      simp [dictInsert, dictLookup, Ne.symm h]
    · by_cases hk' : kv.1 = k'
      · simp [dictInsert, hk, dictLookup, hk', h]
      · simp [dictInsert, hk, dictLookup, hk', ih]

theorem mem_dictInsert (d : List (Str × Str)) (k v : Str) (kv : Str × Str)
    (h : kv ∈ dictInsert d k v) : kv = (k, v) ∨ kv ∈ d := by
  induction d with
  | nil => simpa [dictInsert] using h
  | cons hd rest ih =>
    by_cases hk : hd.1 = k
    · simp only [dictInsert, if_pos hk, List.mem_cons] at h
      rcases h with h | h
      · exact Or.inl h
      · exact Or.inr (List.mem_cons_of_mem _ h)
    · simp only [dictInsert, if_neg hk, List.mem_cons] at h
      rcases h with h | h
      · exact Or.inr (h ▸ List.mem_cons_self _ _)
      · rcases ih h with h' | h'
        · exact Or.inl h'
        · exact Or.inr (List.mem_cons_of_mem _ h')

theorem self_mem_dictInsert (d : List (Str × Str)) (k v : Str) :
    (k, v) ∈ dictInsert d k v := by
  induction d with
  | nil => simp [dictInsert]
  | cons hd rest ih =>
    by_cases hk : hd.1 = k
    · simp [dictInsert, hk]
    · simp only [dictInsert, if_neg hk, List.mem_cons]
      exact Or.inr ih

theorem dictInsert_keys_nodup (d : List (Str × Str)) (k v : Str)
    (h : (d.map Prod.fst).Nodup) : ((dictInsert d k v).map Prod.fst).Nodup := by
  induction d with
  | nil => simp [dictInsert]
  | cons hd rest ih =>
    simp only [List.map_cons, List.nodup_cons] at h
    by_cases hk : hd.1 = k
    · subst hk
      simpa [dictInsert, List.nodup_cons] using h
    · have hrest := ih h.2
      simp only [dictInsert, if_neg hk, List.map_cons, List.nodup_cons]
      refine ⟨?_, hrest⟩
      intro hmem
      rcases List.mem_map.1 hmem with ⟨kv, hkv, hfst⟩
      rcases mem_dictInsert _ _ _ _ hkv with h' | h'
      · exact hk (by rw [← hfst, h'])
      · exact h.1 (List.mem_map.2 ⟨kv, h', hfst⟩)

theorem dictLookup_eq_of_unique (d : List (Str × Str)) (k v : Str)
    (hmem : (k, v) ∈ d) (huniq : ∀ kv ∈ d, kv.1 = k → kv.2 = v) :
    dictLookup d k = some v := by
  induction d with
  | nil => cases hmem
  | cons hd rest ih =>
    by_cases hk : hd.1 = k
    · have := huniq hd (List.mem_cons_self _ _) hk
      simp [dictLookup, hk, ← this]
    · rcases List.mem_cons.1 hmem with h | h
      · exact absurd (by rw [← h]) hk
      · simpa [dictLookup, hk] using ih h (fun kv hkv => huniq kv (List.mem_cons_of_mem _ hkv))

/-! ## Stripping lemmas -/

theorem dropWhile_eq_self_of_head (p : Char → Bool) (l : Str)
    (h : ∀ c, l.head? = some c → p c = false) : l.dropWhile p = l := by
  cases l with
  | nil => rfl
  | cons c t => simp [List.dropWhile_cons, h c rfl]

theorem head?_dropWhile (p : Char → Bool) (l : Str) :
    ∀ c, (l.dropWhile p).head? = some c → p c = false := by
  induction l with
  | nil => intro c h; simp at h
  | cons a t ih =>
    intro c h
    by_cases hp : p a
    · rw [List.dropWhile_cons, if_pos hp] at h
      exact ih c h
    · rw [List.dropWhile_cons, if_neg hp] at h
      simp only [List.head?_cons, Option.some.injEq] at h
      subst h
      simpa using hp

theorem prefix_head? {u l : Str} (h : u <+: l) (c : Char) (hc : u.head? = some c) :
    l.head? = some c := by
  rcases h with ⟨t, rfl⟩
  cases u with
  | nil => simp at hc
  | cons a u' => simpa using hc

theorem pyStrip_prefix_dropWhile (s : Str) :
    pyStrip s <+: s.dropWhile pyIsSpace := by
  unfold pyStrip
  have h : ((s.dropWhile pyIsSpace).reverse.dropWhile pyIsSpace) <:+
      (s.dropWhile pyIsSpace).reverse := List.dropWhile_suffix _
  have := List.reverse_prefix.2 h
  simpa using this

theorem head?_pyStrip (s : Str) (c : Char) (h : (pyStrip s).head? = some c) :
    pyIsSpace c = false :=
  head?_dropWhile pyIsSpace s c (prefix_head? (pyStrip_prefix_dropWhile s) c h)

theorem pyStrip_idem (s : Str) : pyStrip (pyStrip s) = pyStrip s := by
  have h1 : (pyStrip s).dropWhile pyIsSpace = pyStrip s :=
    dropWhile_eq_self_of_head _ _ (head?_pyStrip s)
  have h2 : (pyStrip s).reverse = (s.dropWhile pyIsSpace).reverse.dropWhile pyIsSpace := by
    unfold pyStrip
    simp
  have h3 : (pyStrip s).reverse.dropWhile pyIsSpace = (pyStrip s).reverse := by
    rw [h2]
    exact dropWhile_eq_self_of_head _ _ (head?_dropWhile pyIsSpace _)
  have h4 : pyStrip (pyStrip s) =
      (((pyStrip s).dropWhile pyIsSpace).reverse.dropWhile pyIsSpace).reverse := rfl
  rw [h4, h1, h3]
  simp

theorem mem_of_mem_pyStrip {c : Char} {s : Str} (h : c ∈ pyStrip s) : c ∈ s := by
  have h1 : c ∈ s.dropWhile pyIsSpace :=
    ((pyStrip_prefix_dropWhile s).sublist).mem h
  exact (List.dropWhile_sublist pyIsSpace).mem h1

theorem mem_dropWhile_of_not (p : Char → Bool) {c : Char} {l : Str}
    (h : c ∈ l) (hc : p c = false) : c ∈ l.dropWhile p := by
  induction l with
  | nil => cases h
  | cons a t ih =>
    by_cases hp : p a
    · rw [List.dropWhile_cons, if_pos hp]
      rcases List.mem_cons.1 h with h' | h'
      · subst h'
        rw [hc] at hp
        cases hp
      · exact ih h'
    · rw [List.dropWhile_cons, if_neg hp]
      exact h

theorem mem_pyStrip_of_not_space {c : Char} {s : Str} (h : c ∈ s)
    (hc : pyIsSpace c = false) : c ∈ pyStrip s := by
  unfold pyStrip
  have h1 : c ∈ s.dropWhile pyIsSpace := mem_dropWhile_of_not _ h hc
  have h2 : c ∈ (s.dropWhile pyIsSpace).reverse := List.mem_reverse.2 h1
  have h3 : c ∈ (s.dropWhile pyIsSpace).reverse.dropWhile pyIsSpace :=
    mem_dropWhile_of_not _ h2 hc
  exact List.mem_reverse.2 h3

theorem mem_pyStrip_iff {c : Char} (s : Str) (hc : pyIsSpace c = false) :
    c ∈ pyStrip s ↔ c ∈ s :=
  ⟨mem_of_mem_pyStrip, fun h => mem_pyStrip_of_not_space h hc⟩

theorem pyStrip_eq_self_of_no_space (s : Str) (h : ∀ c ∈ s, pyIsSpace c = false) :
    pyStrip s = s := by
  unfold pyStrip
  have h1 : s.dropWhile pyIsSpace = s := by
    apply dropWhile_eq_self_of_head
    intro c hc
    exact h c (List.mem_of_mem_head? hc)
  rw [h1]
  have h2 : s.reverse.dropWhile pyIsSpace = s.reverse := by
    apply dropWhile_eq_self_of_head
    intro c hc
    exact h c (List.mem_reverse.1 (List.mem_of_mem_head? hc))
  rw [h2]
  simp

/-! ## Mod-list token lemmas and the save/get round trip -/

theorem splitOnP_sep_not_mem (p : Char → Bool) (s : Str) :
    ∀ l ∈ s.splitOnP p, ∀ c ∈ l, p c = false := by
  induction s with
  | nil =>
    intro l hl c hc
    rw [List.splitOnP_nil] at hl
    rcases List.mem_singleton.1 hl with rfl
    cases hc
  | cons a t ih =>
    intro l hl c hc
    rw [List.splitOnP_cons] at hl
    by_cases hp : p a
    · rw [if_pos hp] at hl
      rcases List.mem_cons.1 hl with rfl | hl'
      · cases hc
      · exact ih l hl' c hc
    · rw [if_neg hp] at hl
      rcases he : t.splitOnP p with _ | ⟨h0, tl⟩
      · exact absurd he (List.splitOnP_ne_nil p t)
      · rw [he] at hl
        simp only [List.modifyHead] at hl
        rcases List.mem_cons.1 hl with rfl | hl'
        · rcases List.mem_cons.1 hc with rfl | hc'
          · simpa using hp
          · exact ih h0 (he ▸ List.mem_cons_self _ _) c hc'
        · exact ih l (he ▸ List.mem_cons_of_mem _ hl') c hc

theorem parseModList_valid (s : Str) : ∀ x ∈ parseModList s, validToken x := by
  intro x hx
  unfold parseModList at hx
  rcases List.mem_filter.1 hx with ⟨hmap, hne⟩
  rcases List.mem_map.1 hmap with ⟨y, hy, rfl⟩
  refine ⟨by simpa using hne, pyStrip_idem y, ?_⟩
  intro hsemi
  have hmem : ';' ∈ y := mem_of_mem_pyStrip hsemi
  have := splitOnP_sep_not_mem (fun c => c == ';') s y hy ';' hmem
  simp at this

theorem parse_intercalate (l : List Str) (h : ∀ x ∈ l, validToken x) :
    parseModList (List.intercalate [';'] l) = l := by
  rcases hl : l with _ | ⟨x, xs⟩
  · rfl
  · rw [← hl]
    have hne : l ≠ [] := by rw [hl]; exact List.cons_ne_nil _ _
    have hsep : ∀ x' ∈ l, ';' ∉ x' := fun x' hx' => (h x' hx').2.2
    have hsplit : (List.intercalate [';'] l).splitOn ';' = l :=
      List.splitOn_intercalate l ';' hsep hne
    unfold parseModList
    rw [hsplit]
    have hmap : l.map pyStrip = l := by
      have := List.map_congr_left (fun a ha => (h a ha).2.1)
      rw [this]
      exact List.map_id' l
    rw [hmap]
    rw [List.filter_eq_self.2]
    intro a ha
    simpa using (h a ha).1

theorem get_mods_save_mods (wi ms : List Str) (st : ModState)
    (hw : ∀ x ∈ wi, validToken x) (hm : ∀ x ∈ ms, validToken x) :
    get_mods (save_mods wi ms st) = ((wi, ms), save_mods wi ms st) := by
  have hW : dictLookup (save_mods wi ms st).db WORKSHOP_KEY =
      some (List.intercalate [';'] wi) := by
    unfold save_mods
    rw [dictLookup_dictInsert_ne _ _ _ _ (by decide), dictLookup_dictInsert_self]
  have hM : dictLookup (save_mods wi ms st).db MODS_KEY =
      some (List.intercalate [';'] ms) := by
    unfold save_mods
    exact dictLookup_dictInsert_self _ _ _
  unfold get_mods
  rw [hW, hM]
  simp [parse_intercalate wi hw, parse_intercalate ms hm]

theorem get_mods_valid (st : ModState) :
    (∀ x ∈ (get_mods st).1.1, validToken x) ∧ (∀ x ∈ (get_mods st).1.2, validToken x) := by
  simp only [get_mods]
  split
  · exact ⟨parseModList_valid _, parseModList_valid _⟩
  · exact ⟨parseModList_valid _, parseModList_valid _⟩

theorem api_add_mod_eq (w m : Str) (st : ModState) (hne : pyStrip w ≠ []) :
    api_add_mod w m st =
      (⟨true, "Added mod ".toList ++ pyStrip w⟩,
        save_mods
          (if pyStrip w ∈ (get_mods st).1.1 then (get_mods st).1.1
           else (get_mods st).1.1 ++ [pyStrip w])
          (if pyStrip m ≠ [] ∧ pyStrip m ∉ (get_mods st).1.2 then
             (get_mods st).1.2 ++ [pyStrip m]
           else (get_mods st).1.2)
          (get_mods st).2) := by
  simp only [api_add_mod]
  rw [if_neg hne]

/-- C1: for valid mod lists (tokens nonempty, stripped, `;`-free), saving
with `save_mods` and reading back with `get_mods` returns exactly the two
lists that were saved, order preserved. -/
theorem c1_save_get_roundtrip (wi ms : List Str) (st : ModState)
    (hw : ∀ x ∈ wi, validToken x) (hm : ∀ x ∈ ms, validToken x) :
    (get_mods (save_mods wi ms st)).1 = (wi, ms) := by
  rw [get_mods_save_mods wi ms st hw hm]

theorem c1_save_get_roundtrip_witness :
    (∀ x ∈ [("123".toList), ("456".toList)], validToken x) ∧
    (∀ x ∈ [("ModA".toList)], validToken x) ∧
    (get_mods (save_mods [("123".toList), ("456".toList)] [("ModA".toList)] ⟨[], []⟩)).1 =
      ([("123".toList), ("456".toList)], [("ModA".toList)]) :=
  ⟨by decide, by decide,
    c1_save_get_roundtrip [("123".toList), ("456".toList)] [("ModA".toList)] ⟨[], []⟩
      (by decide) (by decide)⟩

/-- C8: `api_add_mod` is idempotent on the stored mod lists for a genuine
workshop id (and optional mod id): a second call with the same ids leaves
the lists read back by `get_mods` unchanged and still reports success. -/
theorem c8_add_mod_idempotent (w m : Str) (st : ModState)
    (hw : validToken (pyStrip w)) (hm : pyStrip m = [] ∨ validToken (pyStrip m)) :
    (api_add_mod w m ((api_add_mod w m st).2)).1.success = true ∧
    (get_mods ((api_add_mod w m ((api_add_mod w m st).2)).2)).1 =
      (get_mods ((api_add_mod w m st).2)).1 := by
  have hne : pyStrip w ≠ [] := hw.1
  have hcur := get_mods_valid st
  have h1 := api_add_mod_eq w m st hne
  have hv1 : ∀ x ∈ (if pyStrip w ∈ (get_mods st).1.1 then (get_mods st).1.1
      else (get_mods st).1.1 ++ [pyStrip w]), validToken x := by
    by_cases hc : pyStrip w ∈ (get_mods st).1.1
    · rw [if_pos hc]; exact hcur.1
    · rw [if_neg hc]
      intro x hx
      rcases List.mem_append.1 hx with h | h
      · exact hcur.1 x h
      · rcases List.mem_singleton.1 h with rfl; exact hw
  have hv2 : ∀ x ∈ (if pyStrip m ≠ [] ∧ pyStrip m ∉ (get_mods st).1.2 then
      (get_mods st).1.2 ++ [pyStrip m] else (get_mods st).1.2), validToken x := by
    by_cases hc : pyStrip m ≠ [] ∧ pyStrip m ∉ (get_mods st).1.2
    · rw [if_pos hc]
      intro x hx
      rcases List.mem_append.1 hx with h | h
      · exact hcur.2 x h
      · rcases List.mem_singleton.1 h with rfl
        rcases hm with hm | hm
        · exact absurd hm hc.1
        · exact hm
    · rw [if_neg hc]; exact hcur.2
  have hmw : pyStrip w ∈ (if pyStrip w ∈ (get_mods st).1.1 then (get_mods st).1.1
      else (get_mods st).1.1 ++ [pyStrip w]) := by
    by_cases hc : pyStrip w ∈ (get_mods st).1.1
    · rw [if_pos hc]; exact hc
    · rw [if_neg hc]
      exact List.mem_append_right _ (List.mem_singleton_self _)
  have hmm : pyStrip m ≠ [] → pyStrip m ∈ (if pyStrip m ≠ [] ∧ pyStrip m ∉ (get_mods st).1.2 then
      (get_mods st).1.2 ++ [pyStrip m] else (get_mods st).1.2) := by
    intro hmne
    by_cases hc : pyStrip m ∉ (get_mods st).1.2
    · rw [if_pos ⟨hmne, hc⟩]
      exact List.mem_append_right _ (List.mem_singleton_self _)
    · rw [if_neg (fun hand => hc hand.2)]
      exact not_not.1 hc
  have hst1 : (api_add_mod w m st).2 = save_mods
      (if pyStrip w ∈ (get_mods st).1.1 then (get_mods st).1.1
       else (get_mods st).1.1 ++ [pyStrip w])
      (if pyStrip m ≠ [] ∧ pyStrip m ∉ (get_mods st).1.2 then
        (get_mods st).1.2 ++ [pyStrip m] else (get_mods st).1.2)
      (get_mods st).2 := by
    rw [h1]
  have hr := get_mods_save_mods _ _ (get_mods st).2 hv1 hv2
  have h2 := api_add_mod_eq w m ((api_add_mod w m st).2) hne
  rw [hst1] at h2 ⊢
  rw [hr] at h2 ⊢
  have hifw : (if pyStrip w ∈ (if pyStrip w ∈ (get_mods st).1.1 then (get_mods st).1.1
      else (get_mods st).1.1 ++ [pyStrip w]) then
        (if pyStrip w ∈ (get_mods st).1.1 then (get_mods st).1.1
         else (get_mods st).1.1 ++ [pyStrip w])
      else (if pyStrip w ∈ (get_mods st).1.1 then (get_mods st).1.1
         else (get_mods st).1.1 ++ [pyStrip w]) ++ [pyStrip w]) =
      (if pyStrip w ∈ (get_mods st).1.1 then (get_mods st).1.1
       else (get_mods st).1.1 ++ [pyStrip w]) := if_pos hmw
  have hifm : (if pyStrip m ≠ [] ∧ pyStrip m ∉ (if pyStrip m ≠ [] ∧
        pyStrip m ∉ (get_mods st).1.2 then (get_mods st).1.2 ++ [pyStrip m]
        else (get_mods st).1.2) then
        (if pyStrip m ≠ [] ∧ pyStrip m ∉ (get_mods st).1.2 then
          (get_mods st).1.2 ++ [pyStrip m] else (get_mods st).1.2) ++ [pyStrip m]
      else (if pyStrip m ≠ [] ∧ pyStrip m ∉ (get_mods st).1.2 then
          (get_mods st).1.2 ++ [pyStrip m] else (get_mods st).1.2)) =
      (if pyStrip m ≠ [] ∧ pyStrip m ∉ (get_mods st).1.2 then
        (get_mods st).1.2 ++ [pyStrip m] else (get_mods st).1.2) := by
    by_cases hmne : pyStrip m = []
    · rw [if_neg]
      intro hand
      exact hand.1 hmne
    · rw [if_neg]
      intro hand
      exact hand.2 (hmm hmne)
  simp only [hifw, hifm] at h2
  rw [h2]
  constructor
  · rfl
  · have hfin := get_mods_save_mods _ _ (save_mods
      (if pyStrip w ∈ (get_mods st).1.1 then (get_mods st).1.1
       else (get_mods st).1.1 ++ [pyStrip w])
      (if pyStrip m ≠ [] ∧ pyStrip m ∉ (get_mods st).1.2 then
        (get_mods st).1.2 ++ [pyStrip m] else (get_mods st).1.2)
      (get_mods st).2) hv1 hv2
    have h3 := congrArg Prod.fst hfin
    simpa using h3

theorem c8_add_mod_idempotent_witness :
    validToken (pyStrip ("111".toList)) ∧
    ((api_add_mod ("111".toList) ("ModA".toList)
        ((api_add_mod ("111".toList) ("ModA".toList) ⟨[], []⟩).2)).1.success = true ∧
      (get_mods ((api_add_mod ("111".toList) ("ModA".toList)
        ((api_add_mod ("111".toList) ("ModA".toList) ⟨[], []⟩).2)).2)).1 =
      (get_mods ((api_add_mod ("111".toList) ("ModA".toList) ⟨[], []⟩).2)).1) :=
  ⟨by decide, c8_add_mod_idempotent ("111".toList) ("ModA".toList) ⟨[], []⟩ (by decide)
    (Or.inr (by decide))⟩

theorem api_remove_mod_eq (w m : Str) (st : ModState) :
    api_remove_mod w m st = (⟨true, "Mod removed".toList⟩,
      save_mods
        (if pyStrip w ≠ [] ∧ pyStrip w ∈ (get_mods st).1.1 then
          (get_mods st).1.1.erase (pyStrip w) else (get_mods st).1.1)
        (if pyStrip m ≠ [] ∧ pyStrip m ∈ (get_mods st).1.2 then
          (get_mods st).1.2.erase (pyStrip m) else (get_mods st).1.2)
        (get_mods st).2) := by
  simp only [api_remove_mod]

theorem get_mods_idem (st : ModState) :
    get_mods ((get_mods st).2) = ((get_mods st).1, (get_mods st).2) := by
  by_cases h : (dictLookup st.db WORKSHOP_KEY).isSome = true ∨
      (dictLookup st.db MODS_KEY).isSome = true
  · have h1 : get_mods st = ((parseModList ((dictLookup st.db WORKSHOP_KEY).getD []),
        parseModList ((dictLookup st.db MODS_KEY).getD [])), st) := by
      simp only [get_mods]
      rw [if_pos h]
    rw [h1]
    exact h1
  · have hw : dictLookup st.db WORKSHOP_KEY = none := by
      rcases hq : dictLookup st.db WORKSHOP_KEY with _ | v
      · rfl
      · exact absurd (Or.inl (by rw [hq]; rfl)) h
    have hm : dictLookup st.db MODS_KEY = none := by
      rcases hq : dictLookup st.db MODS_KEY with _ | v
      · rfl
      · exact absurd (Or.inr (by rw [hq]; rfl)) h
    by_cases hne : (dictLookup (read_env_file st.envLines) WORKSHOP_KEY).getD [] ≠ [] ∨
        (dictLookup (read_env_file st.envLines) MODS_KEY).getD [] ≠ []
    · have hbranch : get_mods st =
          ((parseModList ((dictLookup (read_env_file st.envLines) WORKSHOP_KEY).getD []),
            parseModList ((dictLookup (read_env_file st.envLines) MODS_KEY).getD [])),
           ⟨dictInsert (dictInsert st.db WORKSHOP_KEY
              ((dictLookup (read_env_file st.envLines) WORKSHOP_KEY).getD []))
              MODS_KEY ((dictLookup (read_env_file st.envLines) MODS_KEY).getD []),
            st.envLines⟩) := by
        simp only [get_mods, hw, hm]
        rw [if_neg (by simp), if_pos hne]
      have hW2 : dictLookup (dictInsert (dictInsert st.db WORKSHOP_KEY
          ((dictLookup (read_env_file st.envLines) WORKSHOP_KEY).getD []))
          MODS_KEY ((dictLookup (read_env_file st.envLines) MODS_KEY).getD [])) WORKSHOP_KEY =
          some ((dictLookup (read_env_file st.envLines) WORKSHOP_KEY).getD []) :=
        (dictLookup_dictInsert_ne _ _ _ _ (by decide)).trans (dictLookup_dictInsert_self _ _ _)
      have hM2 : dictLookup (dictInsert (dictInsert st.db WORKSHOP_KEY
          ((dictLookup (read_env_file st.envLines) WORKSHOP_KEY).getD []))
          MODS_KEY ((dictLookup (read_env_file st.envLines) MODS_KEY).getD [])) MODS_KEY =
          some ((dictLookup (read_env_file st.envLines) MODS_KEY).getD []) :=
        dictLookup_dictInsert_self _ _ _
      rw [hbranch]
      simp only [get_mods]
      simp [hW2, hM2]
    · have h1 : get_mods st =
          ((parseModList ((dictLookup (read_env_file st.envLines) WORKSHOP_KEY).getD []),
            parseModList ((dictLookup (read_env_file st.envLines) MODS_KEY).getD [])),
           ⟨st.db, st.envLines⟩) := by
        simp only [get_mods, hw, hm]
        rw [if_neg (by simp), if_neg hne]
      rw [h1]
      exact h1

theorem foldl_append_unique (ids : List Str) :
    ∀ acc : List Str, acc.Nodup → (∀ x ∈ acc, validToken x) → (∀ x ∈ ids, validToken x) →
      (ids.foldl (fun acc id => if id ∈ acc then acc else acc ++ [id]) acc).Nodup ∧
      (∀ x ∈ ids.foldl (fun acc id => if id ∈ acc then acc else acc ++ [id]) acc,
        validToken x) := by
  induction ids with
  | nil =>
    intro acc h1 h2 _
    exact ⟨h1, h2⟩
  | cons i rest ih =>
    intro acc h1 h2 h3
    rw [List.foldl_cons]
    by_cases hm : i ∈ acc
    · rw [if_pos hm]
      exact ih acc h1 h2 (fun x hx => h3 x (List.mem_cons_of_mem _ hx))
    · rw [if_neg hm]
      apply ih
      · simp [List.nodup_append, h1, hm]
      · intro x hx
        rcases List.mem_append.1 hx with hx | hx
        · exact h2 x hx
        · rcases List.mem_singleton.1 hx with rfl
          exact h3 _ (List.mem_cons_self _ _)
      · exact fun x hx => h3 x (List.mem_cons_of_mem _ hx)

theorem api_import_collection_snd (cid : Str) (ids : List Str) (st : ModState)
    (hc : pyStrip cid ≠ []) (hids : ids ≠ []) :
    (api_import_collection cid (Except.ok ids) st).2 =
      save_mods (ids.foldl (fun acc id => if id ∈ acc then acc else acc ++ [id])
        (get_mods st).1.1) (get_mods st).1.2 (get_mods st).2 := by
  simp only [api_import_collection]
  rw [if_neg hc, if_neg hids]

/-- C3 counterexample: `api_save_mods` does not de-duplicate, so saving the
pair (["a", "a"], []) leaves a state whose workshop list, read back by
`get_mods`, is ["a", "a"] — a duplicate within the sequence. -/
theorem c3_counterexample :
    (get_mods (api_save_mods [("a".toList), ("a".toList)] [] ⟨[], []⟩).2).1.1 =
      [("a".toList), ("a".toList)] ∧
    ¬ (get_mods (api_save_mods [("a".toList), ("a".toList)] [] ⟨[], []⟩).2).1.1.Nodup := by
  decide

/-- C3 amended: `get_mods`, `api_add_mod`, `api_remove_mod`, and
`api_import_collection` preserve the no-duplicates invariant of the
stored workshopItems and mods sequences (`get_mods` re-reads the very
lists it returned), while `api_save_mods` stores its input lists
verbatim, so the state after it is duplicate-free exactly when the input
lists were; `api_save_mods` performs no de-duplication and duplicate
inputs persist to state. -/
theorem c3_amended (w m cid : Str) (wi ms ids : List Str) (st : ModState)
    (hw : validToken (pyStrip w)) (hm : pyStrip m = [] ∨ validToken (pyStrip m))
    (hst1 : (get_mods st).1.1.Nodup) (hst2 : (get_mods st).1.2.Nodup)
    (hwv : ∀ x ∈ wi, validToken x) (hmv : ∀ x ∈ ms, validToken x)
    (hids : ∀ x ∈ ids, validToken x) :
    ((get_mods ((api_save_mods wi ms st).2)).1 = (wi, ms)) ∧
    (get_mods ((get_mods st).2)).1 = (get_mods st).1 ∧
    (get_mods ((api_add_mod w m st).2)).1.1.Nodup ∧
    (get_mods ((api_add_mod w m st).2)).1.2.Nodup ∧
    (get_mods ((api_remove_mod w m st).2)).1.1.Nodup ∧
    (get_mods ((api_remove_mod w m st).2)).1.2.Nodup ∧
    (get_mods ((api_import_collection cid (Except.ok ids) st).2)).1.1.Nodup ∧
    (get_mods ((api_import_collection cid (Except.ok ids) st).2)).1.2.Nodup := by
  have hcur := get_mods_valid st
  have hne : pyStrip w ≠ [] := hw.1
  have hv1 : ∀ x ∈ (if pyStrip w ∈ (get_mods st).1.1 then (get_mods st).1.1
      else (get_mods st).1.1 ++ [pyStrip w]), validToken x := by
    by_cases hc : pyStrip w ∈ (get_mods st).1.1
    · rw [if_pos hc]; exact hcur.1
    · rw [if_neg hc]
      intro x hx
      rcases List.mem_append.1 hx with h | h
      · exact hcur.1 x h
      · rcases List.mem_singleton.1 h with rfl; exact hw
  have hv2 : ∀ x ∈ (if pyStrip m ≠ [] ∧ pyStrip m ∉ (get_mods st).1.2 then
      (get_mods st).1.2 ++ [pyStrip m] else (get_mods st).1.2), validToken x := by
    by_cases hc : pyStrip m ≠ [] ∧ pyStrip m ∉ (get_mods st).1.2
    · rw [if_pos hc]
      intro x hx
      rcases List.mem_append.1 hx with h | h
      · exact hcur.2 x h
      · rcases List.mem_singleton.1 h with rfl
        rcases hm with hm | hm
        · exact absurd hm hc.1
        · exact hm
    · rw [if_neg hc]; exact hcur.2
  have hv1e : ∀ x ∈ (if pyStrip w ≠ [] ∧ pyStrip w ∈ (get_mods st).1.1 then
      (get_mods st).1.1.erase (pyStrip w) else (get_mods st).1.1), validToken x := by
    by_cases hc : pyStrip w ≠ [] ∧ pyStrip w ∈ (get_mods st).1.1
    · rw [if_pos hc]
      intro x hx
      exact hcur.1 x (List.mem_of_mem_erase hx)
    · rw [if_neg hc]; exact hcur.1
  have hv2e : ∀ x ∈ (if pyStrip m ≠ [] ∧ pyStrip m ∈ (get_mods st).1.2 then
      (get_mods st).1.2.erase (pyStrip m) else (get_mods st).1.2), validToken x := by
    by_cases hc : pyStrip m ≠ [] ∧ pyStrip m ∈ (get_mods st).1.2
    · rw [if_pos hc]
      intro x hx
      exact hcur.2 x (List.mem_of_mem_erase hx)
    · rw [if_neg hc]; exact hcur.2
  have himp : (get_mods ((api_import_collection cid (Except.ok ids) st).2)).1.1.Nodup ∧
      (get_mods ((api_import_collection cid (Except.ok ids) st).2)).1.2.Nodup := by
    by_cases hc0 : pyStrip cid = []
    · have hsame : (api_import_collection cid (Except.ok ids) st).2 = st := by
        simp only [api_import_collection]
        rw [if_pos hc0]
      rw [hsame]
      exact ⟨hst1, hst2⟩
    · by_cases hi0 : ids = []
      · have hsame : (api_import_collection cid (Except.ok ids) st).2 = st := by
          simp only [api_import_collection]
          rw [if_neg hc0, if_pos hi0]
        rw [hsame]
        exact ⟨hst1, hst2⟩
      · rw [api_import_collection_snd cid ids st hc0 hi0]
        have hfold := foldl_append_unique ids ((get_mods st).1.1) hst1 hcur.1 hids
        have hr := get_mods_save_mods _ _ (get_mods st).2 hfold.2 hcur.2
        have h1 := congrArg (fun q => q.1.1) hr
        have h2 := congrArg (fun q => q.1.2) hr
        simp only at h1 h2
        rw [h1, h2]
        exact ⟨hfold.1, hst2⟩
  refine ⟨?_, ?_, ?_, ?_, ?_, ?_, himp.1, himp.2⟩
  · have := get_mods_save_mods wi ms st hwv hmv
    exact congrArg Prod.fst this
  · have hgm := congrArg Prod.fst (get_mods_idem st)
    simpa using hgm
  · rw [api_add_mod_eq w m st hne]
    have hfin := get_mods_save_mods _ _ (get_mods st).2 hv1 hv2
    have h3 := congrArg (fun q => q.1.1) hfin
    simp only at h3
    rw [h3]
    by_cases hc : pyStrip w ∈ (get_mods st).1.1
    · rw [if_pos hc]; exact hst1
    · rw [if_neg hc]
      simp [List.nodup_append, hst1, hc]
  · rw [api_add_mod_eq w m st hne]
    have hfin := get_mods_save_mods _ _ (get_mods st).2 hv1 hv2
    have h3 := congrArg (fun q => q.1.2) hfin
    simp only at h3
    rw [h3]
    by_cases hc : pyStrip m ≠ [] ∧ pyStrip m ∉ (get_mods st).1.2
    · rw [if_pos hc]
      simp [List.nodup_append, hst2, hc.2]
    · rw [if_neg hc]; exact hst2
  · rw [api_remove_mod_eq w m st]
    have hfin := get_mods_save_mods _ _ (get_mods st).2 hv1e hv2e
    have h3 := congrArg (fun q => q.1.1) hfin
    simp only at h3
    rw [h3]
    by_cases hc : pyStrip w ≠ [] ∧ pyStrip w ∈ (get_mods st).1.1
    · rw [if_pos hc]; exact hst1.erase _
    · rw [if_neg hc]; exact hst1
  · rw [api_remove_mod_eq w m st]
    have hfin := get_mods_save_mods _ _ (get_mods st).2 hv1e hv2e
    have h3 := congrArg (fun q => q.1.2) hfin
    simp only at h3
    rw [h3]
    by_cases hc : pyStrip m ≠ [] ∧ pyStrip m ∈ (get_mods st).1.2
    · rw [if_pos hc]; exact hst2.erase _
    · rw [if_neg hc]; exact hst2

theorem c3_amended_witness :
    validToken (pyStrip ("111".toList)) ∧
    (∀ x ∈ [("9".toList)], validToken x) ∧
    (((get_mods ((api_save_mods [("5".toList)] [] (⟨[], []⟩ : ModState)).2)).1 =
        ([("5".toList)], []) ∧
      (get_mods ((get_mods (⟨[], []⟩ : ModState)).2)).1 =
        (get_mods (⟨[], []⟩ : ModState)).1 ∧
      (get_mods ((api_add_mod ("111".toList) [] (⟨[], []⟩ : ModState)).2)).1.1.Nodup ∧
      (get_mods ((api_add_mod ("111".toList) [] (⟨[], []⟩ : ModState)).2)).1.2.Nodup ∧
      (get_mods ((api_remove_mod ("111".toList) [] (⟨[], []⟩ : ModState)).2)).1.1.Nodup ∧
      (get_mods ((api_remove_mod ("111".toList) [] (⟨[], []⟩ : ModState)).2)).1.2.Nodup ∧
      (get_mods ((api_import_collection ("77".toList) (Except.ok [("9".toList)])
        (⟨[], []⟩ : ModState)).2)).1.1.Nodup ∧
      (get_mods ((api_import_collection ("77".toList) (Except.ok [("9".toList)])
        (⟨[], []⟩ : ModState)).2)).1.2.Nodup)) :=
  ⟨by decide, by decide,
    c3_amended ("111".toList) [] ("77".toList) [("5".toList)] [] [("9".toList)] ⟨[], []⟩
      (by decide) (Or.inl (by decide)) (by decide) (by decide) (by decide) (by decide)
      (by decide)⟩

/-- C5 counterexample: with `MODS` present in the store but
`WORKSHOP_ITEMS` only in the `.env` file, `get_mods` serves
`WORKSHOP_ITEMS` as empty and copies nothing into the store: the claimed
per-key migration does not happen. -/
theorem c5_counterexample :
    dictLookup (⟨[(MODS_KEY, "m1".toList)], ["WORKSHOP_ITEMS=123".toList]⟩ : ModState).db
      WORKSHOP_KEY = none ∧
    dictLookup (read_env_file
      (⟨[(MODS_KEY, "m1".toList)], ["WORKSHOP_ITEMS=123".toList]⟩ : ModState).envLines)
      WORKSHOP_KEY = some ("123".toList) ∧
    (get_mods (⟨[(MODS_KEY, "m1".toList)], ["WORKSHOP_ITEMS=123".toList]⟩ : ModState)).1.1 =
      [] ∧
    (get_mods (⟨[(MODS_KEY, "m1".toList)], ["WORKSHOP_ITEMS=123".toList]⟩ : ModState)).2 =
      (⟨[(MODS_KEY, "m1".toList)], ["WORKSHOP_ITEMS=123".toList]⟩ : ModState) := by
  decide

/-- C5 amended: the one-time migration from the `.env` file happens only
when both keys are absent from the store (and at least one file value is
nonempty); it then copies both file values into the store before
returning them, and a subsequent read is served from the store with the
same values and no further state change. -/
theorem c5_amended (st : ModState)
    (hw : dictLookup st.db WORKSHOP_KEY = none)
    (hm : dictLookup st.db MODS_KEY = none)
    (hne : (dictLookup (read_env_file st.envLines) WORKSHOP_KEY).getD [] ≠ [] ∨
           (dictLookup (read_env_file st.envLines) MODS_KEY).getD [] ≠ []) :
    dictLookup (get_mods st).2.db WORKSHOP_KEY =
      some ((dictLookup (read_env_file st.envLines) WORKSHOP_KEY).getD []) ∧
    dictLookup (get_mods st).2.db MODS_KEY =
      some ((dictLookup (read_env_file st.envLines) MODS_KEY).getD []) ∧
    (get_mods st).1 =
      (parseModList ((dictLookup (read_env_file st.envLines) WORKSHOP_KEY).getD []),
       parseModList ((dictLookup (read_env_file st.envLines) MODS_KEY).getD [])) ∧
    (get_mods st).2.envLines = st.envLines ∧
    get_mods ((get_mods st).2) = ((get_mods st).1, (get_mods st).2) := by
  have hbranch : get_mods st =
      ((parseModList ((dictLookup (read_env_file st.envLines) WORKSHOP_KEY).getD []),
        parseModList ((dictLookup (read_env_file st.envLines) MODS_KEY).getD [])),
       ⟨dictInsert (dictInsert st.db WORKSHOP_KEY
          ((dictLookup (read_env_file st.envLines) WORKSHOP_KEY).getD []))
          MODS_KEY ((dictLookup (read_env_file st.envLines) MODS_KEY).getD []),
        st.envLines⟩) := by
    simp only [get_mods, hw, hm]
    rw [if_neg (by simp), if_pos hne]
  have hdbW : dictLookup (get_mods st).2.db WORKSHOP_KEY =
      some ((dictLookup (read_env_file st.envLines) WORKSHOP_KEY).getD []) := by
    rw [hbranch]
    exact (dictLookup_dictInsert_ne _ _ _ _ (by decide)).trans
      (dictLookup_dictInsert_self _ _ _)
  have hdbM : dictLookup (get_mods st).2.db MODS_KEY =
      some ((dictLookup (read_env_file st.envLines) MODS_KEY).getD []) := by
    rw [hbranch]
    exact dictLookup_dictInsert_self _ _ _
  refine ⟨hdbW, hdbM, ?_, ?_, ?_⟩
  · rw [hbranch]
  · rw [hbranch]
  · have hW2 : dictLookup (dictInsert (dictInsert st.db WORKSHOP_KEY
        ((dictLookup (read_env_file st.envLines) WORKSHOP_KEY).getD []))
        MODS_KEY ((dictLookup (read_env_file st.envLines) MODS_KEY).getD [])) WORKSHOP_KEY =
        some ((dictLookup (read_env_file st.envLines) WORKSHOP_KEY).getD []) :=
      (dictLookup_dictInsert_ne _ _ _ _ (by decide)).trans (dictLookup_dictInsert_self _ _ _)
    have hM2 : dictLookup (dictInsert (dictInsert st.db WORKSHOP_KEY
        ((dictLookup (read_env_file st.envLines) WORKSHOP_KEY).getD []))
        MODS_KEY ((dictLookup (read_env_file st.envLines) MODS_KEY).getD [])) MODS_KEY =
        some ((dictLookup (read_env_file st.envLines) MODS_KEY).getD []) :=
      dictLookup_dictInsert_self _ _ _
    rw [hbranch]
    simp only [get_mods]
    simp [hW2, hM2]

theorem c5_amended_witness :
    dictLookup (⟨[], ["WORKSHOP_ITEMS=123".toList]⟩ : ModState).db WORKSHOP_KEY = none ∧
    (dictLookup (get_mods (⟨[], ["WORKSHOP_ITEMS=123".toList]⟩ : ModState)).2.db
        WORKSHOP_KEY =
      some ((dictLookup (read_env_file
        (⟨[], ["WORKSHOP_ITEMS=123".toList]⟩ : ModState).envLines) WORKSHOP_KEY).getD [])) :=
  ⟨by decide,
    (c5_amended ⟨[], ["WORKSHOP_ITEMS=123".toList]⟩ (by decide) (by decide)
      (Or.inl (by decide))).1⟩

/-! ## Backup-name classification -/

theorem containsSub_iff (sub s : Str) :
    containsSub sub s = true ↔ ∃ pre post, pre ++ sub ++ post = s := by
  induction s with
  | nil =>
    simp only [containsSub]
    constructor
    · intro h
      rcases List.isPrefixOf_iff_prefix.1 h with ⟨t, ht⟩
      rcases List.append_eq_nil.1 ht with ⟨rfl, rfl⟩
      exact ⟨[], [], rfl⟩
    · rintro ⟨pre, post, h⟩
      rcases List.append_eq_nil.1 h with ⟨h1, rfl⟩
      rcases List.append_eq_nil.1 h1 with ⟨rfl, rfl⟩
      simp [List.isPrefixOf_iff_prefix]
  | cons c rest ih =>
    simp only [containsSub, Bool.or_eq_true]
    constructor
    · intro h
      rcases h with h | h
      · rcases List.isPrefixOf_iff_prefix.1 h with ⟨t, ht⟩
        exact ⟨[], t, by simpa using ht⟩
      · rcases ih.1 h with ⟨pre, post, hp⟩
        exact ⟨c :: pre, post, by simp [hp]⟩
    · rintro ⟨pre, post, hp⟩
      cases pre with
      | nil =>
        left
        rw [List.isPrefixOf_iff_prefix]
        exact ⟨post, by simpa using hp⟩
      | cons c' pre' =>
        right
        rw [List.cons_append] at hp
        injection hp with hc hrest
        exact ih.2 ⟨pre', post, hrest⟩

theorem matchTimestamp_eq_true_iff (s : Str) :
    matchTimestamp s = true ↔ ∃ (d1 d2 m1 m2 y1 y2 h1 h2 n1 n2 s1 s2 : Char),
      d1.isDigit = true ∧ d2.isDigit = true ∧ m1.isDigit = true ∧ m2.isDigit = true ∧
      y1.isDigit = true ∧ y2.isDigit = true ∧ h1.isDigit = true ∧ h2.isDigit = true ∧
      n1.isDigit = true ∧ n2.isDigit = true ∧ s1.isDigit = true ∧ s2.isDigit = true ∧
      s = ['_', d1, d2, '-', m1, m2, '-', y1, y2, '_', h1, h2, '-', n1, n2, '-', s1, s2] := by
  constructor
  · intro h
    unfold matchTimestamp at h
    split at h
    · next a1 a2 b1 b2 c1 c2 d1 d2 e1 e2 f1 f2 =>
      simp only [Bool.and_eq_true, and_assoc] at h
      obtain ⟨h1, h2, h3, h4, h5, h6, h7, h8, h9, h10, h11, h12⟩ := h
      exact ⟨a1, a2, b1, b2, c1, c2, d1, d2, e1, e2, f1, f2,
        h1, h2, h3, h4, h5, h6, h7, h8, h9, h10, h11, h12, rfl⟩
    · exact absurd h (by simp)
  · rintro ⟨d1, d2, m1, m2, y1, y2, h1, h2, n1, n2, s1, s2,
      g1, g2, g3, g4, g5, g6, g7, g8, g9, g10, g11, g12, rfl⟩
    simp [matchTimestamp, g1, g2, g3, g4, g5, g6, g7, g8, g9, g10, g11, g12]

theorem searchTimestampEnd_iff (name : Str) :
    searchTimestampEnd name = true ↔ specTimestampSuffix name := by
  unfold searchTimestampEnd specTimestampSuffix
  constructor
  · intro h
    rcases (matchTimestamp_eq_true_iff _).1 h with ⟨d1, d2, m1, m2, y1, y2, h1, h2, n1, n2,
      s1, s2, g1, g2, g3, g4, g5, g6, g7, g8, g9, g10, g11, g12, heq⟩
    refine ⟨name.take (name.length - 18), d1, d2, m1, m2, y1, y2, h1, h2, n1, n2, s1, s2,
      g1, g2, g3, g4, g5, g6, g7, g8, g9, g10, g11, g12, ?_⟩
    rw [← heq]
    exact (List.take_append_drop _ _).symm
  · rintro ⟨pre, d1, d2, m1, m2, y1, y2, h1, h2, n1, n2, s1, s2,
      g1, g2, g3, g4, g5, g6, g7, g8, g9, g10, g11, g12, rfl⟩
    apply (matchTimestamp_eq_true_iff _).2
    refine ⟨d1, d2, m1, m2, y1, y2, h1, h2, n1, n2, s1, s2,
      g1, g2, g3, g4, g5, g6, g7, g8, g9, g10, g11, g12, ?_⟩
    have hlen : (pre ++ ['_', d1, d2, '-', m1, m2, '-', y1, y2, '_', h1, h2, '-', n1, n2,
        '-', s1, s2]).length - 18 = pre.length := by
      simp
    rw [hlen]
    exact List.drop_left pre _

/-- C4: `is_backup_folder` returns true exactly on the names described by
the spec rule — the name contains `_backup` case-insensitively, or it ends
with a `_DD-MM-YY_HH-MM-SS` timestamp suffix — and the four concrete
examples of the spec evaluate as stated. -/
theorem c4_is_backup_folder_spec :
    (∀ name : Str, is_backup_folder name = true ↔ isBackupSpec name) ∧
    is_backup_folder ("myworld_backup".toList) = true ∧
    is_backup_folder ("myworld_01-02-23_10-00-00".toList) = true ∧
    is_backup_folder ("myworld".toList) = false ∧
    is_backup_folder ("myworld_2".toList) = false := by
  refine ⟨?_, by decide, by decide, by decide, by decide⟩
  intro name
  unfold is_backup_folder isBackupSpec specContainsBackup
  by_cases hc : containsSub ("_backup".toList) (name.map Char.toLower) = true
  · rw [if_pos hc]
    simp only [true_iff]
    exact Or.inl ((containsSub_iff _ _).1 hc)
  · rw [if_neg hc]
    by_cases hs : searchTimestampEnd name = true
    · rw [if_pos hs]
      simp only [true_iff]
      exact Or.inr ((searchTimestampEnd_iff _).1 hs)
    · rw [if_neg hs]
      constructor
      · intro habs
        cases habs
      · rintro (h | h)
        · exact absurd ((containsSub_iff _ _).2 h) hc
        · exact absurd ((searchTimestampEnd_iff _).2 h) hs

/-! ## Shape of the rewritten env file -/

theorem writeStep_fst (env : List (Str × Str)) (acc : List Str × List Str) (line : Str) :
    (writeStep env acc line).1 = acc.1 ++ (keepLine env line).toList := by
  simp only [writeStep, keepLine]
  split
  · simp
  · split
    · rcases h : dictLookup env (lineKey line) with _ | v <;> simp [h]
    · simp

theorem writeStep_snd (env : List (Str × Str)) (acc : List Str × List Str) (line : Str) :
    (writeStep env acc line).2 = (lineKeyOpt line).toList ++ acc.2 := by
  simp only [writeStep, lineKeyOpt]
  split
  · simp
  · split
    · rcases h : dictLookup env (lineKey line) with _ | v <;> simp [h]
    · simp

theorem foldl_writeStep (env : List (Str × Str)) :
    ∀ (lines : List Str) (ls ks : List Str),
      (lines.foldl (writeStep env) (ls, ks)).1 = ls ++ lines.filterMap (keepLine env) ∧
      (lines.foldl (writeStep env) (ls, ks)).2 = (fileKeys lines).reverse ++ ks := by
  intro lines
  induction lines with
  | nil => intro ls ks; simp [fileKeys]
  | cons l rest ih =>
    intro ls ks
    rw [List.foldl_cons]
    have hstep : writeStep env (ls, ks) l =
        (ls ++ (keepLine env l).toList, (lineKeyOpt l).toList ++ ks) := by
      have h1 := writeStep_fst env (ls, ks) l
      have h2 := writeStep_snd env (ls, ks) l
      cases h : writeStep env (ls, ks) l
      rw [h] at h1 h2
      simp at h1 h2
      simp [h1, h2]
    rw [hstep]
    rcases ih (ls ++ (keepLine env l).toList) ((lineKeyOpt l).toList ++ ks) with ⟨ih1, ih2⟩
    constructor
    · rw [ih1]
      simp [List.filterMap_cons]
      rcases hk : keepLine env l with _ | x <;> simp [hk]
    · rw [ih2]
      have hfk : fileKeys (l :: rest) = (lineKeyOpt l).toList ++ fileKeys rest := by
        simp only [fileKeys, List.filterMap_cons]
        rcases hk : lineKeyOpt l with _ | x <;> simp [hk]
      rw [hfk]
      rcases hk : lineKeyOpt l with _ | x <;> simp
  
theorem write_env_file_eq (lines : List Str) (env : List (Str × Str)) :
    write_env_file lines env =
      lines.filterMap (keepLine env) ++
        (env.filter (fun kv => decide (kv.1 ∉ fileKeys lines))).map
          (fun kv => kv.1 ++ '=' :: kv.2) := by
  simp only [write_env_file]
  rcases foldl_writeStep env lines [] [] with ⟨h1, h2⟩
  rw [h1, h2]
  simp only [List.nil_append, List.append_nil]
  have hfilter : ∀ kv : Str × Str,
      decide (kv.1 ∉ (fileKeys lines).reverse) = decide (kv.1 ∉ fileKeys lines) := by
    intro kv
    simp
  rw [List.filter_congr (fun kv _ => hfilter kv)]

/-- C7: the rewritten env file is exactly the original lines transformed
in order — comment and blank lines kept verbatim, key lines whose key is
in the update rewritten in place, other key lines kept verbatim — followed
by the update's keys absent from the file, appended in insertion order;
in particular every pre-existing comment or blank line, and every key line
whose key is not updated, appears unchanged in the output. -/
theorem c7_write_env_file_preserves (lines : List Str) (env : List (Str × Str)) :
    write_env_file lines env =
      lines.filterMap (keepLine env) ++
        (env.filter (fun kv => decide (kv.1 ∉ fileKeys lines))).map
          (fun kv => kv.1 ++ '=' :: kv.2) ∧
    (∀ line ∈ lines, (pyStartsWith (pyStrip line) ['#'] = true ∨ pyStrip line = []) →
      line ∈ write_env_file lines env) ∧
    (∀ line ∈ lines, '=' ∈ pyStrip line → dictLookup env (lineKey line) = none →
      line ∈ write_env_file lines env) := by
  refine ⟨write_env_file_eq lines env, ?_, ?_⟩
  · intro line hline hc
    rw [write_env_file_eq]
    apply List.mem_append_left
    apply List.mem_filterMap.2
    refine ⟨line, hline, ?_⟩
    simp only [keepLine]
    rw [if_pos hc]
  · intro line hline he hlk
    rw [write_env_file_eq]
    apply List.mem_append_left
    apply List.mem_filterMap.2
    refine ⟨line, hline, ?_⟩
    simp only [keepLine]
    by_cases hc : pyStartsWith (pyStrip line) ['#'] = true ∨ pyStrip line = []
    · rw [if_pos hc]
    · rw [if_neg hc, if_pos he, hlk]

theorem c7_write_env_file_preserves_witness :
    ("# c".toList ∈ [("# c".toList), ("OTHER=7".toList)]) ∧
    (pyStartsWith (pyStrip ("# c".toList)) ['#'] = true ∨ pyStrip ("# c".toList) = []) ∧
    ("# c".toList ∈ write_env_file [("# c".toList), ("OTHER=7".toList)]
      [(MODS_KEY, "b".toList)]) :=
  ⟨by decide, by decide,
    (c7_write_env_file_preserves [("# c".toList), ("OTHER=7".toList)]
      [(MODS_KEY, "b".toList)]).2.1 ("# c".toList) (by decide) (by decide)⟩

/-- C10: a pre-existing line that is not a comment, not blank, and
contains no `=` is silently dropped by the env-file rewrite, while comment
and blank lines and the images of key lines are carried over. -/
theorem c10_malformed_line_dropped (lines : List Str) (env : List (Str × Str)) (line : Str)
    (hmem : line ∈ lines)
    (hc : pyStartsWith (pyStrip line) ['#'] = false) (hb : pyStrip line ≠ [])
    (he : '=' ∉ pyStrip line) :
    line ∉ write_env_file lines env ∧
    (∀ l ∈ lines, (pyStartsWith (pyStrip l) ['#'] = true ∨ pyStrip l = []) →
      l ∈ write_env_file lines env) ∧
    (∀ l ∈ lines, '=' ∈ pyStrip l →
      ∃ out ∈ write_env_file lines env, keepLine env l = some out) := by
  refine ⟨?_, ?_, ?_⟩
  · intro hout
    rw [write_env_file_eq] at hout
    rcases List.mem_append.1 hout with hout | hout
    · rcases List.mem_filterMap.1 hout with ⟨l0, hl0, hkeep⟩
      simp only [keepLine] at hkeep
      by_cases h0 : pyStartsWith (pyStrip l0) ['#'] = true ∨ pyStrip l0 = []
      · rw [if_pos h0] at hkeep
        injection hkeep with hkeep
        subst hkeep
        rcases h0 with h0 | h0
        · rw [h0] at hc
          simp at hc
        · exact hb h0
      · rw [if_neg h0] at hkeep
        by_cases h1 : '=' ∈ pyStrip l0
        · rw [if_pos h1] at hkeep
          rcases h2 : dictLookup env (lineKey l0) with _ | v
          · rw [h2] at hkeep
            injection hkeep with hkeep
            subst hkeep
            exact he h1
          · rw [h2] at hkeep
            injection hkeep with hkeep
            apply he
            refine mem_pyStrip_of_not_space ?_ (by decide)
            rw [← hkeep]
            exact List.mem_append_right _ (List.mem_cons_self _ _)
        · rw [if_neg h1] at hkeep
          cases hkeep
    · rcases List.mem_map.1 hout with ⟨kv, hkv, hline⟩
      apply he
      refine mem_pyStrip_of_not_space ?_ (by decide)
      rw [← hline]
      exact List.mem_append_right _ (List.mem_cons_self _ _)
  · intro l hl hcm
    rw [write_env_file_eq]
    apply List.mem_append_left
    apply List.mem_filterMap.2
    refine ⟨l, hl, ?_⟩
    simp only [keepLine]
    rw [if_pos hcm]
  · intro l hl he1
    have hex : ∃ out, keepLine env l = some out := by
      simp only [keepLine]
      by_cases h0 : pyStartsWith (pyStrip l) ['#'] = true ∨ pyStrip l = []
      · rw [if_pos h0]; exact ⟨l, rfl⟩
      · rw [if_neg h0, if_pos he1]
        rcases h2 : dictLookup env (lineKey l) with _ | v
        · exact ⟨l, rfl⟩
        · exact ⟨lineKey l ++ '=' :: v, rfl⟩
    rcases hex with ⟨out, hout⟩
    refine ⟨out, ?_, hout⟩
    rw [write_env_file_eq]
    exact List.mem_append_left _ (List.mem_filterMap.2 ⟨l, hl, hout⟩)

theorem c10_malformed_line_dropped_witness :
    ("junk".toList ∈ [("junk".toList), ("# c".toList), ("A=1".toList)]) ∧
    pyStartsWith (pyStrip ("junk".toList)) ['#'] = false ∧
    ("junk".toList ∉ write_env_file [("junk".toList), ("# c".toList), ("A=1".toList)] []) :=
  ⟨by decide, by decide,
    (c10_malformed_line_dropped [("junk".toList), ("# c".toList), ("A=1".toList)] []
      ("junk".toList) (by decide) (by decide) (by decide) (by decide)).1⟩

/-! ## Reading back a written key -/

theorem startsWith_single (s : Str) (c : Char) :
    pyStartsWith s [c] = true ↔ s.head? = some c := by
  cases s with
  | nil => simp [pyStartsWith, List.isPrefixOf]
  | cons a t =>
    simp only [pyStartsWith, List.isPrefixOf, List.head?_cons, Option.some.injEq]
    constructor
    · intro h
      simp at h
      exact h.symm
    · intro h
      simp [h]

theorem takeWhile_append_sep (p : Char → Bool) (k v : Str) (c : Char)
    (hk : ∀ x ∈ k, p x = true) (hc : p c = false) :
    (k ++ c :: v).takeWhile p = k := by
  induction k with
  | nil => simp [List.takeWhile_cons, hc]
  | cons a t ih =>
    rw [List.cons_append, List.takeWhile_cons, if_pos (hk a (List.mem_cons_self _ _)),
      ih (fun x hx => hk x (List.mem_cons_of_mem _ hx))]

theorem dropWhile_append_sep (p : Char → Bool) (k v : Str) (c : Char)
    (hk : ∀ x ∈ k, p x = true) (hc : p c = false) :
    (k ++ c :: v).dropWhile p = c :: v := by
  induction k with
  | nil => simp [List.dropWhile_cons, hc]
  | cons a t ih =>
    rw [List.cons_append, List.dropWhile_cons, if_pos (hk a (List.mem_cons_self _ _)),
      ih (fun x hx => hk x (List.mem_cons_of_mem _ hx))]

theorem lineKey_good (line : Str) :
    pyStrip (lineKey line) = lineKey line ∧ '=' ∉ lineKey line := by
  constructor
  · exact pyStrip_idem _
  · intro h
    have h1 : '=' ∈ (pyStrip line).takeWhile (fun c => c != '=') := mem_of_mem_pyStrip h
    have h2 := List.mem_takeWhile_imp h1
    simp at h2

theorem lineVal_strip (line : Str) : pyStrip (lineVal line) = lineVal line :=
  pyStrip_idem _

theorem head?_of_strip (s : Str) (h : pyStrip s = s) :
    ∀ c, s.head? = some c → pyIsSpace c = false := by
  intro c hc
  exact head?_pyStrip s c (by rw [h]; exact hc)

theorem pyStrip_reverse (s : Str) :
    (pyStrip s).reverse = (s.dropWhile pyIsSpace).reverse.dropWhile pyIsSpace := by
  unfold pyStrip
  simp

theorem getLast?_pyStrip (s : Str) :
    ∀ c, (pyStrip s).getLast? = some c → pyIsSpace c = false := by
  intro c hc
  have h1 : (pyStrip s).reverse.head? = some c := by
    rw [List.head?_reverse]
    exact hc
  rw [pyStrip_reverse] at h1
  exact head?_dropWhile pyIsSpace _ c h1

theorem getLast?_of_strip (s : Str) (h : pyStrip s = s) :
    ∀ c, s.getLast? = some c → pyIsSpace c = false := by
  intro c hc
  exact getLast?_pyStrip s c (by rw [h]; exact hc)

theorem pyStrip_eq_self_of_ends (l : Str)
    (h1 : ∀ c, l.head? = some c → pyIsSpace c = false)
    (h2 : ∀ c, l.getLast? = some c → pyIsSpace c = false) :
    pyStrip l = l := by
  unfold pyStrip
  rw [dropWhile_eq_self_of_head _ _ h1]
  rw [dropWhile_eq_self_of_head _ _ (fun c hc => h2 c (by rwa [List.head?_reverse] at hc))]
  simp

theorem render_strip (K w : Str) (hK : pyStrip K = K) (hw : pyStrip w = w) :
    pyStrip (K ++ '=' :: w) = K ++ '=' :: w := by
  apply pyStrip_eq_self_of_ends
  · intro c hc
    rw [List.head?_append] at hc
    rcases hh : K.head? with _ | a
    · rw [hh] at hc
      simp at hc
      subst hc
      decide
    · rw [hh] at hc
      simp at hc
      subst hc
      exact head?_of_strip K hK a hh
  · intro c hc
    rw [List.getLast?_append] at hc
    have hlast : ('=' :: w).getLast? = w.getLast?.or (some '=') := by
      rw [← List.head?_reverse]
      simp only [List.reverse_cons]
      rw [List.head?_append]
      simp [List.head?_reverse]
    rw [hlast] at hc
    rcases hh : w.getLast? with _ | a
    · rw [hh] at hc
      simp at hc
      subst hc
      decide
    · rw [hh] at hc
      simp at hc
      subst hc
      exact getLast?_of_strip w hw a hh

theorem lineKey_render (K w : Str) (hK : pyStrip K = K) (hKeq : '=' ∉ K)
    (hw : pyStrip w = w) : lineKey (K ++ '=' :: w) = K := by
  unfold lineKey
  rw [render_strip K w hK hw]
  rw [takeWhile_append_sep _ _ _ _ (fun x hx => by
    simp only [bne_iff_ne, ne_eq, decide_eq_true_eq]
    intro hx'
    exact hKeq (hx' ▸ hx)) (by decide)]
  exact hK

theorem lineVal_render (K w : Str) (hK : pyStrip K = K) (hKeq : '=' ∉ K)
    (hw : pyStrip w = w) : lineVal (K ++ '=' :: w) = w := by
  unfold lineVal
  rw [render_strip K w hK hw]
  rw [dropWhile_append_sep _ _ _ _ (fun x hx => by
    simp only [bne_iff_ne, ne_eq, decide_eq_true_eq]
    intro hx'
    exact hKeq (hx' ▸ hx)) (by decide)]
  simpa using hw

theorem parsedKV_render (K w : Str) (hK : pyStrip K = K) (hKne : K ≠ [])
    (hKh : pyStartsWith K ['#'] = false) (hKeq : '=' ∉ K) (hw : pyStrip w = w) :
    parsedKV (K ++ '=' :: w) = some (K, w) := by
  simp only [parsedKV]
  rw [render_strip K w hK hw]
  rw [if_pos]
  · rw [lineKey_render K w hK hKeq hw, lineVal_render K w hK hKeq hw]
  · refine ⟨by simp, ?_, List.mem_append_right _ (List.mem_cons_self _ _)⟩
    rcases hh : K.head? with _ | a
    · exact absurd (List.head?_eq_none_iff.1 hh) hKne
    · by_cases hsh : pyStartsWith (K ++ '=' :: w) ['#'] = true
      · have := (startsWith_single _ _).1 hsh
        rw [List.head?_append, hh] at this
        simp at this
        subst this
        have : pyStartsWith K ['#'] = true := (startsWith_single _ _).2 hh
        rw [this] at hKh
        cases hKh
      · simpa using hsh

theorem parsedKV_none_of_comment (l : Str)
    (h : pyStartsWith (pyStrip l) ['#'] = true ∨ pyStrip l = []) :
    parsedKV l = none := by
  simp only [parsedKV]
  rw [if_neg]
  rintro ⟨h1, h2, h3⟩
  rcases h with h | h
  · rw [h] at h2
    cases h2
  · exact h1 h

theorem parsedKV_some_eq (line : Str) (kv : Str × Str) (h : parsedKV line = some kv) :
    kv = (lineKey line, lineVal line) ∧ pyStrip line ≠ [] ∧
      pyStartsWith (pyStrip line) ['#'] = false ∧ '=' ∈ pyStrip line := by
  simp only [parsedKV] at h
  split at h
  · next hcond =>
    injection h with h
    exact ⟨h.symm, hcond⟩
  · cases h

theorem dictInsert_value_unique (d : List (Str × Str)) (k v : Str)
    (hnd : (d.map Prod.fst).Nodup) :
    ∀ kv ∈ dictInsert d k v, kv.1 = k → kv.2 = v := by
  induction d with
  | nil =>
    intro kv hkv _
    rcases List.mem_singleton.1 hkv with rfl
    rfl
  | cons hd rest ih =>
    simp only [List.map_cons, List.nodup_cons] at hnd
    intro kv hkv hk
    by_cases hh : hd.1 = k
    · simp only [dictInsert, if_pos hh] at hkv
      rcases List.mem_cons.1 hkv with rfl | hkv'
      · rfl
      · exfalso
        apply hnd.1
        rw [hh, ← hk]
        exact List.mem_map.2 ⟨kv, hkv', rfl⟩
    · simp only [dictInsert, if_neg hh] at hkv
      rcases List.mem_cons.1 hkv with rfl | hkv'
      · exact absurd hk hh
      · exact ih hnd.2 kv hkv' hk

theorem read_env_file_good (lines : List Str) :
    ∀ kv ∈ read_env_file lines,
      pyStrip kv.1 = kv.1 ∧ '=' ∉ kv.1 ∧ pyStrip kv.2 = kv.2 := by
  unfold read_env_file
  suffices h : ∀ (d0 : List (Str × Str)),
      (∀ kv ∈ d0, pyStrip kv.1 = kv.1 ∧ '=' ∉ kv.1 ∧ pyStrip kv.2 = kv.2) →
      ∀ kv ∈ lines.foldl (fun env line =>
        match parsedKV line with
        | some kv => dictInsert env kv.1 kv.2
        | none => env) d0,
        pyStrip kv.1 = kv.1 ∧ '=' ∉ kv.1 ∧ pyStrip kv.2 = kv.2 by
    exact h [] (by intro kv hkv; cases hkv)
  induction lines with
  | nil => intro d0 hd0; simpa using hd0
  | cons l rest ih =>
    intro d0 hd0
    rw [List.foldl_cons]
    apply ih
    rcases hp : parsedKV l with _ | kv0
    · simpa using hd0
    · simp only []
      intro kv hkv
      rcases mem_dictInsert _ _ _ _ hkv with rfl | hkv'
      · rcases parsedKV_some_eq l kv0 hp with ⟨hkv0, _⟩
        rw [hkv0]
        exact ⟨(lineKey_good l).1, (lineKey_good l).2, lineVal_strip l⟩
      · exact hd0 kv hkv'

theorem read_env_file_keys_nodup (lines : List Str) :
    ((read_env_file lines).map Prod.fst).Nodup := by
  unfold read_env_file
  suffices h : ∀ (d0 : List (Str × Str)), (d0.map Prod.fst).Nodup →
      ((lines.foldl (fun env line =>
        match parsedKV line with
        | some kv => dictInsert env kv.1 kv.2
        | none => env) d0).map Prod.fst).Nodup by
    exact h [] (by simp)
  induction lines with
  | nil => intro d0 hd0; simpa using hd0
  | cons l rest ih =>
    intro d0 hd0
    rw [List.foldl_cons]
    apply ih
    rcases hp : parsedKV l with _ | kv0
    · simpa using hd0
    · exact dictInsert_keys_nodup d0 kv0.1 kv0.2 hd0

theorem read_foldl_lookup (k v : Str) :
    ∀ (ls : List Str) (d0 : List (Str × Str)),
      (∀ line ∈ ls, ∀ kv : Str × Str, parsedKV line = some kv → kv.1 = k → kv.2 = v) →
      (dictLookup d0 k = some v ∨
        ∃ line ∈ ls, ∃ kv : Str × Str, parsedKV line = some kv ∧ kv.1 = k) →
      dictLookup (ls.foldl (fun env line =>
        match parsedKV line with
        | some kv => dictInsert env kv.1 kv.2
        | none => env) d0) k = some v := by
  intro ls
  induction ls with
  | nil =>
    intro d0 hA hB
    rcases hB with h | ⟨line, hline, _⟩
    · simpa using h
    · cases hline
  | cons l rest ih =>
    intro d0 hA hB
    rw [List.foldl_cons]
    have hA' : ∀ line ∈ rest, ∀ kv : Str × Str, parsedKV line = some kv → kv.1 = k →
        kv.2 = v :=
      fun line hline => hA line (List.mem_cons_of_mem _ hline)
    rcases hp : parsedKV l with _ | kv0
    · simp only [hp]
      apply ih d0 hA'
      rcases hB with h | ⟨line, hline, kv, hkv, hk⟩
      · exact Or.inl h
      · rcases List.mem_cons.1 hline with rfl | hline'
        · rw [hp] at hkv
          cases hkv
        · exact Or.inr ⟨line, hline', kv, hkv, hk⟩
    · simp only [hp]
      by_cases hk0 : kv0.1 = k
      · have hv2 : kv0.2 = v := hA l (List.mem_cons_self _ _) kv0 hp hk0
        apply ih _ hA'
        left
        calc dictLookup (dictInsert d0 kv0.1 kv0.2) k
            = dictLookup (dictInsert d0 kv0.1 kv0.2) kv0.1 := by rw [hk0]
          _ = some kv0.2 := dictLookup_dictInsert_self _ _ _
          _ = some v := by rw [hv2]
      · apply ih _ hA'
        rcases hB with h | ⟨line, hline, kv, hkv, hk⟩
        · left
          rw [dictLookup_dictInsert_ne d0 kv0.1 kv0.2 k (fun he => hk0 he.symm)]
          exact h
        · rcases List.mem_cons.1 hline with rfl | hline'
          · rw [hp] at hkv
            injection hkv with he
            subst he
            exact absurd hk hk0
          · exact Or.inr ⟨line, hline', kv, hkv, hk⟩

theorem mem_of_dictLookup (d : List (Str × Str)) (k v : Str)
    (h : dictLookup d k = some v) : (k, v) ∈ d := by
  induction d with
  | nil => cases h
  | cons kv rest ih =>
    by_cases hk : kv.1 = k
    · simp only [dictLookup, if_pos hk] at h
      injection h with h
      have : kv = (k, v) := by
        rcases kv with ⟨a, b⟩
        simp only at hk h
        rw [hk, h]
      rw [← this]
      exact List.mem_cons_self _ _
    · simp only [dictLookup, if_neg hk] at h
      exact List.mem_cons_of_mem _ (ih h)

theorem read_write_lookup (lines : List Str) (d : List (Str × Str)) (k v : Str)
    (hk : pyStrip k = k) (hkne : k ≠ []) (hkh : pyStartsWith k ['#'] = false)
    (hkeq : '=' ∉ k) (hv : pyStrip v = v)
    (hd : ∀ kv ∈ d, pyStrip kv.1 = kv.1 ∧ '=' ∉ kv.1 ∧ pyStrip kv.2 = kv.2)
    (hnd : (d.map Prod.fst).Nodup) :
    dictLookup (read_env_file (write_env_file lines (dictInsert d k v))) k = some v := by
  have henv : ∀ kv ∈ dictInsert d k v,
      pyStrip kv.1 = kv.1 ∧ '=' ∉ kv.1 ∧ pyStrip kv.2 = kv.2 := by
    intro kv hkv
    rcases mem_dictInsert _ _ _ _ hkv with rfl | hkv'
    · exact ⟨hk, hkeq, hv⟩
    · exact hd kv hkv'
  have hlookupK : dictLookup (dictInsert d k v) k = some v :=
    dictLookup_dictInsert_self d k v
  have huniq := dictInsert_value_unique d k v hnd
  unfold read_env_file
  apply read_foldl_lookup
  · intro line hline kv hpkv hkvk
    rw [write_env_file_eq] at hline
    rcases List.mem_append.1 hline with hline | hline
    · rcases List.mem_filterMap.1 hline with ⟨l0, hl0, hkeep⟩
      simp only [keepLine] at hkeep
      by_cases h0 : pyStartsWith (pyStrip l0) ['#'] = true ∨ pyStrip l0 = []
      · rw [if_pos h0] at hkeep
        injection hkeep with hkeep
        subst hkeep
        rw [parsedKV_none_of_comment _ h0] at hpkv
        cases hpkv
      · rw [if_neg h0] at hkeep
        by_cases h1 : '=' ∈ pyStrip l0
        · rw [if_pos h1] at hkeep
          rcases h2 : dictLookup (dictInsert d k v) (lineKey l0) with _ | v0
          · rw [h2] at hkeep
            injection hkeep with hkeep
            subst hkeep
            rcases parsedKV_some_eq _ _ hpkv with ⟨hkveq, _⟩
            have hkey : kv.1 = lineKey l0 := by rw [hkveq]
            rw [hkey] at hkvk
            rw [hkvk, hlookupK] at h2
            cases h2
          · rw [h2] at hkeep
            injection hkeep with hkeep
            subst hkeep
            have hgood0 := lineKey_good l0
            have hmem0 : (lineKey l0, v0) ∈ dictInsert d k v :=
              mem_of_dictLookup _ _ _ h2
            have hv0 := (henv _ hmem0).2.2
            rcases parsedKV_some_eq _ _ hpkv with ⟨hkveq, _⟩
            have hkey : kv.1 = lineKey (lineKey l0 ++ '=' :: v0) := by rw [hkveq]
            have hval : kv.2 = lineVal (lineKey l0 ++ '=' :: v0) := by rw [hkveq]
            rw [lineKey_render _ _ hgood0.1 hgood0.2 hv0] at hkey
            rw [lineVal_render _ _ hgood0.1 hgood0.2 hv0] at hval
            rw [hkey] at hkvk
            rw [hkvk, hlookupK] at h2
            injection h2 with h2
            rw [hval, h2]
        · rw [if_neg h1] at hkeep
          cases hkeep
    · rcases List.mem_map.1 hline with ⟨kv0, hkv0f, hlineeq⟩
      have hkv0 : kv0 ∈ dictInsert d k v := (List.mem_filter.1 hkv0f).1
      have hg := henv kv0 hkv0
      subst hlineeq
      rcases parsedKV_some_eq _ _ hpkv with ⟨hkveq, _⟩
      have hkey : kv.1 = lineKey (kv0.1 ++ '=' :: kv0.2) := by rw [hkveq]
      have hval : kv.2 = lineVal (kv0.1 ++ '=' :: kv0.2) := by rw [hkveq]
      rw [lineKey_render _ _ hg.1 hg.2.1 hg.2.2] at hkey
      rw [lineVal_render _ _ hg.1 hg.2.1 hg.2.2] at hval
      rw [hkey] at hkvk
      rw [hval]
      exact huniq kv0 hkv0 hkvk
  · by_cases hkf : k ∈ fileKeys lines
    · right
      rcases List.mem_filterMap.1 hkf with ⟨l0, hl0, hko⟩
      simp only [lineKeyOpt] at hko
      by_cases h0 : pyStartsWith (pyStrip l0) ['#'] = true ∨ pyStrip l0 = []
      · rw [if_pos h0] at hko
        cases hko
      · rw [if_neg h0] at hko
        by_cases h1 : '=' ∈ pyStrip l0
        · rw [if_pos h1] at hko
          injection hko with hko
          refine ⟨k ++ '=' :: v, ?_, (k, v),
            parsedKV_render k v hk hkne hkh hkeq hv, rfl⟩
          rw [write_env_file_eq]
          apply List.mem_append_left
          apply List.mem_filterMap.2
          refine ⟨l0, hl0, ?_⟩
          simp only [keepLine]
          rw [if_neg h0, if_pos h1, hko, hlookupK]
        · rw [if_neg h1] at hko
          cases hko
    · right
      refine ⟨k ++ '=' :: v, ?_, (k, v), parsedKV_render k v hk hkne hkh hkeq hv, rfl⟩
      rw [write_env_file_eq]
      apply List.mem_append_right
      apply List.mem_map.2
      refine ⟨(k, v), ?_, rfl⟩
      apply List.mem_filter.2
      exact ⟨self_mem_dictInsert d k v, by simpa using hkf⟩

/-! ## World-name validation facts -/

theorem wordChar_not_space (c : Char) (h : isWordChar c = true) : pyIsSpace c = false := by
  by_contra hsp
  have hsp' : pyIsSpace c = true := by
    cases hpc : pyIsSpace c
    · exact absurd hpc hsp
    · rfl
  simp only [pyIsSpace, Bool.or_eq_true, beq_iff_eq] at hsp'
  rcases hsp' with ((((h1 | h1) | h1) | h1) | h1) | h1 <;> subst h1 <;> simp [isWordChar] at h

theorem wordChar_not_eq (c : Char) (h : isWordChar c = true) : c ≠ '=' := by
  intro rfl'
  subst rfl'
  revert h
  decide

theorem validWorldName_ne_nil (t : Str) (h : validWorldName t = true) : t ≠ [] := by
  simp only [validWorldName, Bool.and_eq_true, decide_eq_true_eq] at h
  exact h.1

theorem validWorldName_all (t : Str) (h : validWorldName t = true) :
    ∀ c ∈ t, isWordChar c = true := by
  simp only [validWorldName, Bool.and_eq_true, decide_eq_true_eq, List.all_eq_true] at h
  exact h.2

theorem validWorldName_strip (t : Str) (h : validWorldName t = true) : pyStrip t = t :=
  pyStrip_eq_self_of_no_space t (fun c hc => wordChar_not_space c (validWorldName_all t h c hc))

theorem validWorldName_no_eq (t : Str) (h : validWorldName t = true) : '=' ∉ t := by
  intro hmem
  exact wordChar_not_eq '=' (validWorldName_all t h '=' hmem) rfl

theorem get_current_world_setServerName (lines : List Str) (t : Str)
    (ht : pyStrip t = t) : get_current_world (setServerName lines t) = t := by
  unfold get_current_world setServerName
  rw [read_write_lookup lines (read_env_file lines) SERVER_NAME_KEY t (by decide) (by decide)
    (by decide) (by decide) ht (read_env_file_good lines) (read_env_file_keys_nodup lines)]
  rfl

/-! ## Restore and create -/

theorem pathLookup_append (fs1 fs2 : Fs) (p : List Str) :
    pathLookup (fs1 ++ fs2) p = (pathLookup fs1 p).or (pathLookup fs2 p) := by
  induction fs1 with
  | nil => simp [pathLookup]
  | cons e rest ih =>
    by_cases he : e.1 = p
    · simp [pathLookup, he]
    · simp [pathLookup, he, ih]

theorem api_restore_backup_eq (b t : Str) (st : WorldState)
    (hb : pyStrip b = b) (hbne : b ≠ []) (ht : validWorldName t = true) :
    api_restore_backup b t st =
      (if fsExists st.fs (pyPathJoin SAVES_DIR b) = false then
        ((⟨false, "Backup not found".toList⟩ : ApiResult), st)
      else if fsExists st.fs (pyPathJoin SAVES_DIR t) = true then
        (⟨false, "World \"".toList ++ t ++
          "\" already exists. Choose a different name or delete it first.".toList⟩, st)
      else
        (⟨true, "Restored backup to \"".toList ++ t ++
          "\". Restart server to load it.".toList⟩,
         ⟨(match pathLookup st.fs (resolvePath (pyPathJoin SAVES_DIR b)) with
            | some e => st.fs ++ [(resolvePath (pyPathJoin SAVES_DIR t), e)]
            | none => st.fs),
          setServerName st.envLines t⟩)) := by
  have hts := validWorldName_strip t ht
  have htne := validWorldName_ne_nil t ht
  simp only [api_restore_backup, hb, hts]
  rw [if_neg hbne, if_neg htne, if_neg (by rw [ht]; simp)]

/-- C6: with a valid target name, `api_restore_backup` fails with the
backup-not-found message when the backup path is absent and with the
target-exists message when the target path is present, in both cases
returning the state unchanged; on success it reports success, copies the
backup entry to the target path, leaves the backup entry untouched, and
sets `SERVER_NAME` to the target name. -/
theorem c6_restore_backup (b t : Str) (st : WorldState)
    (hb : pyStrip b = b) (hbne : b ≠ []) (ht : validWorldName t = true) :
    (fsExists st.fs (pyPathJoin SAVES_DIR b) = false →
      api_restore_backup b t st = (⟨false, "Backup not found".toList⟩, st)) ∧
    (fsExists st.fs (pyPathJoin SAVES_DIR b) = true →
      fsExists st.fs (pyPathJoin SAVES_DIR t) = true →
      api_restore_backup b t st = (⟨false, "World \"".toList ++ t ++
        "\" already exists. Choose a different name or delete it first.".toList⟩, st)) ∧
    (fsExists st.fs (pyPathJoin SAVES_DIR b) = true →
      fsExists st.fs (pyPathJoin SAVES_DIR t) = false →
      (api_restore_backup b t st).1.success = true ∧
      pathLookup (api_restore_backup b t st).2.fs (resolvePath (pyPathJoin SAVES_DIR b)) =
        pathLookup st.fs (resolvePath (pyPathJoin SAVES_DIR b)) ∧
      pathLookup (api_restore_backup b t st).2.fs (resolvePath (pyPathJoin SAVES_DIR t)) =
        pathLookup st.fs (resolvePath (pyPathJoin SAVES_DIR b)) ∧
      get_current_world (api_restore_backup b t st).2.envLines = t) := by
  rw [api_restore_backup_eq b t st hb hbne ht]
  refine ⟨?_, ?_, ?_⟩
  · intro h1
    rw [if_pos h1]
  · intro h1 h2
    rw [if_neg (by rw [h1]; simp), if_pos h2]
  · intro h1 h2
    rw [if_neg (by rw [h1]; simp), if_neg (by rw [h2]; simp)]
    have hsome : (pathLookup st.fs (resolvePath (pyPathJoin SAVES_DIR b))).isSome = true := by
      simp only [fsExists] at h1
      exact h1
    rcases hE : pathLookup st.fs (resolvePath (pyPathJoin SAVES_DIR b)) with _ | e
    · rw [hE] at hsome
      cases hsome
    · have hnone : pathLookup st.fs (resolvePath (pyPathJoin SAVES_DIR t)) = none := by
        simp only [fsExists] at h2
        rcases hT : pathLookup st.fs (resolvePath (pyPathJoin SAVES_DIR t)) with _ | e2
        · rfl
        · rw [hT] at h2
          cases h2
      simp only [hE]
      refine ⟨trivial, ?_, ?_, ?_⟩
      · rw [pathLookup_append, hE]
        rfl
      · rw [pathLookup_append, hnone]
        simp [pathLookup]
      · exact get_current_world_setServerName _ _ (validWorldName_strip t ht)

theorem c6_restore_backup_witness :
    pyStrip ("b1".toList) = "b1".toList ∧ validWorldName ("t1".toList) = true ∧
    fsExists oneBackupState.fs (pyPathJoin SAVES_DIR ("b1".toList)) = true ∧
    fsExists oneBackupState.fs (pyPathJoin SAVES_DIR ("t1".toList)) = false ∧
    ((api_restore_backup ("b1".toList) ("t1".toList) oneBackupState).1.success = true ∧
      pathLookup (api_restore_backup ("b1".toList) ("t1".toList) oneBackupState).2.fs
          (resolvePath (pyPathJoin SAVES_DIR ("b1".toList))) =
        pathLookup oneBackupState.fs (resolvePath (pyPathJoin SAVES_DIR ("b1".toList))) ∧
      pathLookup (api_restore_backup ("b1".toList) ("t1".toList) oneBackupState).2.fs
          (resolvePath (pyPathJoin SAVES_DIR ("t1".toList))) =
        pathLookup oneBackupState.fs (resolvePath (pyPathJoin SAVES_DIR ("b1".toList))) ∧
      get_current_world (api_restore_backup ("b1".toList) ("t1".toList)
        oneBackupState).2.envLines = "t1".toList) :=
  ⟨by decide, by decide, by decide, by decide,
    (c6_restore_backup ("b1".toList) ("t1".toList) oneBackupState (by decide) (by decide)
      (by decide)).2.2 (by decide) (by decide)⟩

/-- C2 counterexample: `api_create_world` creates no directory, so with an
empty saves directory a first `createWorld("x")` succeeds and a second
identical call also succeeds, instead of failing with the already-exists
error. -/
theorem c2_counterexample :
    (api_create_world ("x".toList) emptySavesState).1.success = true ∧
    (api_create_world ("x".toList)
      (api_create_world ("x".toList) emptySavesState).2).1.success = true ∧
    (api_create_world ("x".toList)
        (api_create_world ("x".toList) emptySavesState).2).1.output ≠
      "A world with this name already exists".toList := by
  decide

theorem api_create_world_eq (name : Str) (st : WorldState)
    (hs : pyStrip name = name) (hv : validWorldName name = true) :
    api_create_world name st =
      (if name ∈ allSavedNames st.fs then
        ((⟨false, "A world with this name already exists".toList⟩ : ApiResult), st)
      else
        (⟨true, "World \"".toList ++ name ++
          "\" will be created on next server start. Restart the server to begin.".toList⟩,
         ⟨st.fs, setServerName st.envLines name⟩)) := by
  simp only [api_create_world, hs, allSavedNames]
  rw [if_neg (validWorldName_ne_nil name hv), if_neg (by rw [hv]; simp)]

/-- C2 amended: `api_create_world` fails with the already-exists error
exactly when the requested name is currently listed among the world or
backup directories of the saves root; since it only sets `SERVER_NAME`
and creates no directory, a successful call followed by an identical call
with no intervening directory creation succeeds both times. -/
theorem c2_amended (name : Str) (st : WorldState)
    (hs : pyStrip name = name) (hv : validWorldName name = true) :
    (name ∉ allSavedNames st.fs →
      (api_create_world name st).1.success = true ∧
      (api_create_world name ((api_create_world name st).2)).1.success = true ∧
      get_current_world ((api_create_world name st).2).envLines = name) ∧
    (name ∈ allSavedNames st.fs →
      api_create_world name st =
        (⟨false, "A world with this name already exists".toList⟩, st)) := by
  constructor
  · intro hnot
    rw [api_create_world_eq name st hs hv, if_neg hnot]
    dsimp only
    refine ⟨rfl, ?_, get_current_world_setServerName _ _ hs⟩
    have h2 := api_create_world_eq name ⟨st.fs, setServerName st.envLines name⟩ hs hv
    rw [h2]
    dsimp only
    rw [if_neg hnot]
  · intro hmem
    rw [api_create_world_eq name st hs hv, if_pos hmem]

theorem c2_amended_witness :
    validWorldName ("y".toList) = true ∧
    ("y".toList ∉ allSavedNames emptySavesState.fs) ∧
    ((api_create_world ("y".toList) emptySavesState).1.success = true ∧
      (api_create_world ("y".toList)
        ((api_create_world ("y".toList) emptySavesState).2)).1.success = true ∧
      get_current_world ((api_create_world ("y".toList) emptySavesState).2).envLines =
        "y".toList) :=
  ⟨by decide, by decide,
    (c2_amended ("y".toList) emptySavesState (by decide) (by decide)).1 (by decide)⟩

/-- C9: `api_restore_backup` applies the name-format validation only to
the target name: for every nonempty stripped backup name, including ones
containing path separators or `..`, the call (with a valid, non-existing
target) succeeds exactly when the path obtained by joining the saves
directory with the backup name exists, and the target receives the entry
found at that joined path; that joined path can resolve outside the saves
root, as the `../../../../etc` conjunct shows. -/
theorem c9_backup_name_unvalidated (b t : Str) (st : WorldState)
    (hb : pyStrip b = b) (hbne : b ≠ []) (ht : validWorldName t = true)
    (htne : fsExists st.fs (pyPathJoin SAVES_DIR t) = false) :
    ((api_restore_backup b t st).1.success = true ↔
      fsExists st.fs (pyPathJoin SAVES_DIR b) = true) ∧
    (fsExists st.fs (pyPathJoin SAVES_DIR b) = true →
      pathLookup (api_restore_backup b t st).2.fs (resolvePath (pyPathJoin SAVES_DIR t)) =
        pathLookup st.fs (resolvePath (pyPathJoin SAVES_DIR b))) ∧
    ((resolvePath (pyPathJoin SAVES_DIR ("../../../../etc".toList))).take
        savesComponents.length ≠ savesComponents) := by
  refine ⟨?_, ?_, by decide⟩
  · constructor
    · intro hs
      by_cases hex : fsExists st.fs (pyPathJoin SAVES_DIR b) = true
      · exact hex
      · have hex' : fsExists st.fs (pyPathJoin SAVES_DIR b) = false := by
          cases hq : fsExists st.fs (pyPathJoin SAVES_DIR b)
          · rfl
          · exact absurd hq hex
        rw [api_restore_backup_eq b t st hb hbne ht, if_pos hex'] at hs
        cases hs
    · intro hex
      rw [api_restore_backup_eq b t st hb hbne ht]
      rw [if_neg (by rw [hex]; simp), if_neg (by rw [htne]; simp)]
  · intro hex
    rw [api_restore_backup_eq b t st hb hbne ht]
    rw [if_neg (by rw [hex]; simp), if_neg (by rw [htne]; simp)]
    have hsome : (pathLookup st.fs (resolvePath (pyPathJoin SAVES_DIR b))).isSome = true := by
      simp only [fsExists] at hex
      exact hex
    rcases hE : pathLookup st.fs (resolvePath (pyPathJoin SAVES_DIR b)) with _ | e
    · rw [hE] at hsome
      cases hsome
    · have hnone : pathLookup st.fs (resolvePath (pyPathJoin SAVES_DIR t)) = none := by
        simp only [fsExists] at htne
        rcases hT : pathLookup st.fs (resolvePath (pyPathJoin SAVES_DIR t)) with _ | e2
        · rfl
        · rw [hT] at htne
          cases htne
      simp only [hE]
      rw [pathLookup_append, hnone]
      simp [pathLookup]

theorem c9_backup_name_unvalidated_witness :
    pyStrip ("../../../../etc".toList) = "../../../../etc".toList ∧
    validWorldName ("t1".toList) = true ∧
    fsExists outsideDirState.fs (pyPathJoin SAVES_DIR ("../../../../etc".toList)) = true ∧
    ((api_restore_backup ("../../../../etc".toList) ("t1".toList)
        outsideDirState).1.success = true ↔
      fsExists outsideDirState.fs
        (pyPathJoin SAVES_DIR ("../../../../etc".toList)) = true) :=
  ⟨by decide, by decide, by decide,
    (c9_backup_name_unvalidated ("../../../../etc".toList) ("t1".toList) outsideDirState
      (by decide) (by decide) (by decide) (by decide)).1⟩
